import Mathlib

/-!
# Verification of the Tastytrade-Tax-Germany lot-accounting engine

Shallow embedding of the core computations of `app.py` and
`services/portfolio_service.py`:

* the historical USD→EUR exchange-rate lookup (`get_exchange_rate`,
  `convert_usd_to_eur`),
* the FIFO realized-gains lot matcher
  (`_group_transactions_by_symbol`, `_calculate_fifo_match`,
  `_process_fifo_gains_by_category`, `calculate_realized_gains_losses`),
* the dividend-to-lot allocator (`get_net_dividends_by_symbol`),
* the two open-lot (unrealized) computations
  (`PortfolioService._process_fifo_matching` and the single-pass FIFO
  removal inside `calculate_unrealized_gains_losses`).

Modelling conventions:

* Python floats are modelled as `ℚ`; all the arithmetic identities proved
  here are exact in `ℚ`.
* Calendar dates are TEXT ISO dates in the SQLite store; lexicographic
  order on ISO date strings agrees with numeric order of the `YYYYMMDD`
  encoding, so dates are modelled as `Nat` in that encoding, and the SQL
  `substr(Date, 1, 4)` year extraction becomes division by `10000`.
* SQL result sets are modelled as the lists the queries produce: the
  exchange-rate table is a list of `(date, rate)` pairs whose dates are
  pairwise distinct (the `exchange_rates.date` column is `UNIQUE`), and a
  transaction snapshot is the date-ascending list the `ORDER BY Date ASC`
  queries return.
* Nullable SQL columns are `Option` values; Python `x or 0` is
  `Option.getD x 0` and `abs(x or 0)` is `|Option.getD x 0|`.
-/

namespace TastyTax

/-- Calendar dates in the `YYYYMMDD` numeric encoding of ISO date text. -/
abbrev Date := Nat

/-- `substr(Date, 1, 4)` on an ISO date string: the year of a date. -/
def yearOf (d : Date) : Nat := d / 10000

/-- The `exchange_rates` table: `(date, usd_to_eur_rate)` rows.
The schema declares `date TEXT UNIQUE`, so dates are pairwise distinct. -/
abbrev RateTable := List (Date × ℚ)

/-- The first row returned by
`SELECT usd_to_eur_rate FROM exchange_rates WHERE date = ?`. -/
def findExact (table : RateTable) (d : Date) : Option ℚ :=
  (table.find? (fun e => e.1 == d)).map (·.2)

/-- The row returned by `ORDER BY date DESC LIMIT 1`: an entry of maximal
date in the result set (unique because dates are distinct). -/
def maxByDate : RateTable → Option (Date × ℚ)
  | [] => none
  | e :: es =>
    match maxByDate es with
    | none => some e
    | some m => if e.1 > m.1 then some e else some m

/-- `get_exchange_rate(date_str)` from `app.py`: exact date match first,
otherwise the rate of the latest table date `≤` the requested date,
otherwise `None`. -/
def get_exchange_rate (table : RateTable) (d : Date) : Option ℚ :=
  match findExact table d with
  | some r => some r
  | none => (maxByDate (table.filter (fun e => e.1 ≤ d))).map (·.2)

/-- `round(x, 2)`: rounding to two decimal places. -/
def round2 (x : ℚ) : ℚ := (round (x * 100) : ℚ) / 100

/-- `convert_usd_to_eur(usd_amount, date_str)` from `app.py`: `None` for a
falsy amount, `None` when no rate resolves or the resolved rate is falsy
(`0`), otherwise `round(usd_amount / rate, 2)`. -/
def convert_usd_to_eur (table : RateTable) (usd_amount : ℚ) (d : Date) :
    Option ℚ :=
  if usd_amount = 0 then none
  else
    match get_exchange_rate table d with
    | some rate => if rate = 0 then none else some (round2 (usd_amount / rate))
    | none => none

/-- `get_exchange_rate(...) or 1.0`, the fallback used by the FIFO gains
processors: a missing rate, or a falsy rate `0`, becomes `1.0`. -/
def rateOr1 (table : RateTable) (d : Date) : ℚ :=
  match get_exchange_rate table d with
  | some r => if r = 0 then 1 else r
  | none => 1

/-! ### Basic facts about the rate lookup -/

theorem maxByDate_eq_none {es : RateTable} : maxByDate es = none ↔ es = [] := by
  cases es with
  | nil => simp [maxByDate]
  | cons e es =>
    rw [maxByDate]
    cases maxByDate es with
    | none => simp
    | some m => by_cases hgt : e.1 > m.1 <;> simp [hgt]

theorem maxByDate_mem : ∀ {es : RateTable} {m : Date × ℚ},
    maxByDate es = some m → m ∈ es := by
  intro es
  induction es with
  | nil => intro m h; simp [maxByDate] at h
  | cons e es ih =>
    intro m h
    rw [maxByDate] at h
    cases hes : maxByDate es with
    | none => rw [hes] at h; simp at h; simp [h]
    | some m0 =>
      rw [hes] at h
      by_cases hgt : e.1 > m0.1
      · simp [hgt] at h; simp [h]
      · simp [hgt] at h
        exact List.mem_cons_of_mem _ (h ▸ ih hes)

theorem maxByDate_isMax : ∀ {es : RateTable} {m : Date × ℚ},
    maxByDate es = some m → ∀ e ∈ es, e.1 ≤ m.1 := by
  intro es
  induction es with
  | nil => intro m h; simp [maxByDate] at h
  | cons e es ih =>
    intro m h
    rw [maxByDate] at h
    cases hes : maxByDate es with
    | none =>
      rw [hes] at h
      simp at h
      have : es = [] := maxByDate_eq_none.mp hes
      subst this
      simp [← h]
    | some m0 =>
      rw [hes] at h
      by_cases hgt : e.1 > m0.1
      · simp [hgt] at h
        intro x hx
        rcases List.mem_cons.mp hx with rfl | hx
        · exact h ▸ le_refl _
        · exact le_trans (ih hes x hx) (h ▸ le_of_lt hgt)
      · simp [hgt] at h
        intro x hx
        rcases List.mem_cons.mp hx with rfl | hx
        · exact le_trans (not_lt.mp hgt) (h ▸ le_refl _)
        · exact h ▸ ih hes x hx

theorem findExact_none_of_not_mem {table : RateTable} {d : Date}
    (h : ∀ e ∈ table, e.1 ≠ d) : findExact table d = none := by
  unfold findExact
  rw [List.find?_eq_none.mpr]
  · rfl
  · intro e he
    simpa using h e he

theorem findExact_of_mem : ∀ {table : RateTable} {d : Date} {r : ℚ},
    (table.map Prod.fst).Nodup → (d, r) ∈ table →
    findExact table d = some r := by
  intro table
  induction table with
  | nil => intro d r _ hmem; simp at hmem
  | cons e es ih =>
    intro d r hnd hmem
    rcases List.mem_cons.mp hmem with rfl | hmem
    · simp [findExact, List.find?]
    · have hne : e.1 ≠ d := by
        intro hcontra
        have : d ∈ es.map Prod.fst := List.mem_map_of_mem Prod.fst hmem
        rw [List.map_cons] at hnd
        exact (List.nodup_cons.mp hnd).1 (hcontra ▸ this)
      have hnd2 : (es.map Prod.fst).Nodup := by
        rw [List.map_cons] at hnd
        exact (List.nodup_cons.mp hnd).2
      unfold findExact at ih ⊢
      rw [List.find?_cons_of_neg _ (by simpa using hne)]
      exact ih hnd2 hmem

theorem eq_of_fst_eq_of_nodupKeys {l : RateTable}
    (hnd : (l.map Prod.fst).Nodup) {a b : Date × ℚ} (ha : a ∈ l)
    (hb : b ∈ l) (hfst : a.1 = b.1) : a = b :=
  List.inj_on_of_nodup_map hnd ha hb hfst

/-- Helper: the small concrete rate table of the carry-forward example,
rates keyed by `YYYYMMDD` dates (`1.10 = 11/10`, `1.08 = 27/25`). -/
def exampleTable : RateTable := [(20240101, 11/10), (20240110, 27/25)]

/-- C3: exchange-rate lookup. An exact table date wins; otherwise the rate
of the greatest table date strictly before the requested date is returned,
never a later one; `none` when no table date is `≤` the requested date
(in particular for the empty table). Concretely, with rates only for
2024-01-01 (1.10) and 2024-01-10 (1.08), the lookup for 2024-01-05 yields
1.10 and the lookup for 2023-12-31 yields none. -/
theorem C3_exchange_rate_carry_forward (table : RateTable) (d : Date)
    (hnd : (table.map Prod.fst).Nodup) :
    (∀ r, (d, r) ∈ table → get_exchange_rate table d = some r) ∧
    (∀ d0 r0, (d0, r0) ∈ table → d0 < d → (∀ e ∈ table, e.1 ≠ d) →
      (∀ e ∈ table, e.1 ≤ d → e.1 ≤ d0) →
      get_exchange_rate table d = some r0) ∧
    ((∀ e ∈ table, ¬ e.1 ≤ d) → get_exchange_rate table d = none) ∧
    get_exchange_rate exampleTable 20240105 = some (11/10) ∧
    get_exchange_rate exampleTable 20231231 = none := by
  refine ⟨?_, ?_, ?_, by rfl, by rfl⟩
  · intro r hmem
    unfold get_exchange_rate
    rw [findExact_of_mem hnd hmem]
  · intro d0 r0 hmem hlt hnoexact hmax
    unfold get_exchange_rate
    rw [findExact_none_of_not_mem hnoexact]
    have hmemf : (d0, r0) ∈ table.filter (fun e => e.1 ≤ d) :=
      List.mem_filter.mpr ⟨hmem, by simpa using le_of_lt hlt⟩
    have hne : table.filter (fun e => e.1 ≤ d) ≠ [] :=
      List.ne_nil_of_mem hmemf
    cases hmx : maxByDate (table.filter (fun e => e.1 ≤ d)) with
    | none => exact absurd (maxByDate_eq_none.mp hmx) hne
    | some m =>
      have hm_mem := maxByDate_mem hmx
      have hm_table : m ∈ table := (List.mem_filter.mp hm_mem).1
      have hm_le : m.1 ≤ d := by
        have := (List.mem_filter.mp hm_mem).2
        simpa using this
      have h1 : m.1 ≤ d0 := hmax m hm_table hm_le
      have h2 : d0 ≤ m.1 := maxByDate_isMax hmx (d0, r0) hmemf
      have hfst : m.1 = d0 := le_antisymm h1 h2
      have : m = (d0, r0) :=
        eq_of_fst_eq_of_nodupKeys hnd hm_table hmem hfst
      simp [this]
  · intro h
    unfold get_exchange_rate
    have hfe : findExact table d = none :=
      findExact_none_of_not_mem (fun e he hcontra =>
        h e he (le_of_eq hcontra))
    rw [hfe]
    have : table.filter (fun e => e.1 ≤ d) = [] :=
      List.filter_eq_nil_iff.mpr (fun e he => by simpa using h e he)
    rw [this]
    rfl

/-- Witness for C3: the theorem instantiated at the concrete example table
and the exact date 2024-01-10. -/
theorem C3_exchange_rate_carry_forward_witness :
    get_exchange_rate exampleTable 20240110 = some (27/25) :=
  (C3_exchange_rate_carry_forward exampleTable 20240110 (by decide)).1
    (27/25) (by simp [exampleTable])

/-! ### Transactions and the realized-gains FIFO matcher (`app.py`) -/

/-- One row of the `transactions` table, restricted to the columns the
lot-accounting engine reads. Nullable columns are `Option`; `Action` is
the raw action string (empty for non-trade rows). -/
structure TransRow where
  Date : Date
  Symbol : String
  typ : String
  Sub_Type : Option String
  Action : String
  Quantity : Option ℚ
  Average_Price : Option ℚ
  Total : Option ℚ
  Value : Option ℚ
  Fees : Option ℚ
  Commissions : Option ℚ
  Asset_Category : Option String
  deriving DecidableEq, Repr

/-- A buy entry produced by `_group_transactions_by_symbol` (the FIFO
open-lot queue element). -/
structure BuyLot where
  date : Date
  quantity : ℚ
  price : ℚ
  total_cost : ℚ
  fees : ℚ
  asset_category : String
  deriving DecidableEq, Repr

/-- A sell entry produced by `_group_transactions_by_symbol`. -/
structure SellTx where
  date : Date
  quantity : ℚ
  price : ℚ
  total_proceeds : ℚ
  fees : ℚ
  asset_category : String
  deriving DecidableEq, Repr

/-- The per-symbol grouping value of `_group_transactions_by_symbol`. -/
structure SymbolGroup where
  buys : List BuyLot
  sells : List SellTx
  asset_category : String
  deriving DecidableEq, Repr

/-- `abs(x or 0)` on a nullable numeric column. -/
def absOr0 (x : Option ℚ) : ℚ := |x.getD 0|

/-- The buy entry built from a transaction row. -/
def toBuyLot (t : TransRow) : BuyLot :=
  { date := t.Date
    quantity := absOr0 t.Quantity
    price := absOr0 t.Average_Price
    total_cost := absOr0 t.Total
    fees := absOr0 t.Fees + absOr0 t.Commissions
    asset_category := t.Asset_Category.getD "Unknown" }

/-- The sell entry built from a transaction row. -/
def toSellTx (t : TransRow) : SellTx :=
  { date := t.Date
    quantity := absOr0 t.Quantity
    price := absOr0 t.Average_Price
    total_proceeds := absOr0 t.Total
    fees := absOr0 t.Fees + absOr0 t.Commissions
    asset_category := t.Asset_Category.getD "Unknown" }

/-- Append a transaction to its symbol's group:
`BUY_TO_OPEN`/`BUY_TO_CLOSE` rows join `buys`,
`SELL_TO_CLOSE`/`SELL_TO_OPEN` rows join `sells`, others are ignored. -/
def applyTxToGroup (g : SymbolGroup) (t : TransRow) : SymbolGroup :=
  if t.Action = "BUY_TO_OPEN" ∨ t.Action = "BUY_TO_CLOSE" then
    { g with buys := g.buys ++ [toBuyLot t] }
  else if t.Action = "SELL_TO_CLOSE" ∨ t.Action = "SELL_TO_OPEN" then
    { g with sells := g.sells ++ [toSellTx t] }
  else g

/-- Update the first association-list entry with the given key
(the Python dict holds one entry per symbol). -/
def updateFirst (k : String) (f : SymbolGroup → SymbolGroup) :
    List (String × SymbolGroup) → List (String × SymbolGroup)
  | [] => []
  | p :: ps => if p.1 = k then (p.1, f p.2) :: ps else p :: updateFirst k f ps

/-- One step of the grouping loop of `_group_transactions_by_symbol`:
insert the symbol with an empty group on first sight, then route the
transaction into that symbol's `buys`/`sells`. -/
def groupStep (acc : List (String × SymbolGroup)) (t : TransRow) :
    List (String × SymbolGroup) :=
  if acc.any (fun p => p.1 = t.Symbol) then
    updateFirst t.Symbol (fun g => applyTxToGroup g t) acc
  else
    acc ++ [(t.Symbol,
      applyTxToGroup ⟨[], [], t.Asset_Category.getD "Unknown"⟩ t)]

/-- `_group_transactions_by_symbol`: an insertion-ordered dict from symbol
to its buy and sell entries. -/
def group_transactions_by_symbol (ts : List TransRow) :
    List (String × SymbolGroup) :=
  ts.foldl groupStep []

/-- A realized-gains `Match` as appended to `detailed_transactions`. -/
structure FifoMatch where
  symbol : String
  buy_date : Date
  sell_date : Date
  quantity : ℚ
  buy_price : ℚ
  sell_price : ℚ
  cost_basis : ℚ
  proceeds : ℚ
  gain_loss : ℚ
  asset_category : String
  buy_price_eur : ℚ
  sell_price_eur : ℚ
  cost_basis_eur : ℚ
  proceeds_eur : ℚ
  gain_loss_eur : ℚ
  deriving DecidableEq, Repr

/-- `_calculate_fifo_match`: proportional cost basis and proceeds of one
FIFO match, with the zero-quantity guards of the source. -/
def calculate_fifo_match (buy : BuyLot) (sell : SellTx) (matched_qty : ℚ)
    (sell_qty : ℚ) : ℚ × ℚ × ℚ :=
  let cost_basis :=
    if 0 < buy.quantity then
      (matched_qty / buy.quantity) * (buy.total_cost + buy.fees)
    else 0
  let proceeds :=
    if 0 < sell_qty then (matched_qty / sell_qty) * sell.total_proceeds
    else 0
  (cost_basis, proceeds, proceeds - cost_basis)

/-- The detailed-transaction record appended for one match, EUR fields
computed with the buy and sell dates' rates (`get_exchange_rate(...) or
1.0`). -/
def mkMatch (table : RateTable) (symbol : String) (buy : BuyLot)
    (sell : SellTx) (matched_qty : ℚ) : FifoMatch :=
  let r := calculate_fifo_match buy sell matched_qty sell.quantity
  let buy_rate := rateOr1 table buy.date
  let sell_rate := rateOr1 table sell.date
  { symbol := symbol
    buy_date := buy.date
    sell_date := sell.date
    quantity := matched_qty
    buy_price := buy.price
    sell_price := sell.price
    cost_basis := r.1
    proceeds := r.2.1
    gain_loss := r.2.2
    asset_category := buy.asset_category
    buy_price_eur := buy.price / buy_rate
    sell_price_eur := sell.price / sell_rate
    cost_basis_eur := r.1 / buy_rate
    proceeds_eur := r.2.1 / sell_rate
    gain_loss_eur := r.2.1 / sell_rate - r.1 / buy_rate }

/-- The inner `while remaining_sell_qty > 0 and buys:` loop of
`_process_fifo_gains_by_category` for one sell: walk the open-lot queue
from the front, emitting one match per consumed (or partially consumed)
lot; a partially consumed lot keeps its date and price and has its
`total_cost` and `fees` scaled by the retained fraction. -/
def processSell (table : RateTable) (symbol : String) (sell : SellTx) :
    List BuyLot → ℚ → List FifoMatch × List BuyLot
  | [], _ => ([], [])
  | b :: bs, remaining =>
    if remaining ≤ 0 then ([], b :: bs)
    else if b.quantity ≤ remaining then
      let m := mkMatch table symbol b sell b.quantity
      let rest := processSell table symbol sell bs (remaining - b.quantity)
      (m :: rest.1, rest.2)
    else
      let m := mkMatch table symbol b sell remaining
      let q := b.quantity - remaining
      let b1 : BuyLot :=
        { b with
          quantity := q
          total_cost :=
            if 0 < q then b.total_cost * (q / (q + remaining))
            else b.total_cost
          fees := if 0 < q then b.fees * (q / (q + remaining)) else b.fees }
      ([m], b1 :: bs)

/-- The `for sell in sells:` loop over one symbol's sells, threading the
mutable open-lot queue and accumulating the detailed transactions. -/
def processSells (table : RateTable) (symbol : String)
    (buys : List BuyLot) (sells : List SellTx) :
    List FifoMatch × List BuyLot :=
  sells.foldl
    (fun acc sell =>
      let r := processSell table symbol sell acc.2 sell.quantity
      (acc.1 ++ r.1, r.2))
    ([], buys)

/-- The per-category USD gain/loss accumulators of
`_process_fifo_gains_by_category`. -/
structure CatTotals where
  total_gains : ℚ
  total_losses : ℚ
  stock_gains : ℚ
  stock_losses : ℚ
  option_gains : ℚ
  option_losses : ℚ
  other_gains : ℚ
  other_losses : ℚ
  deriving DecidableEq, Repr

def CatTotals.zero : CatTotals := ⟨0, 0, 0, 0, 0, 0, 0, 0⟩

/-- One accumulation step: a positive `gain_loss` adds to the gains side
of its asset category, any other `gain_loss` adds its absolute value to
the losses side. -/
def catStep (c : CatTotals) (m : FifoMatch) : CatTotals :=
  if 0 < m.gain_loss then
    { c with
      total_gains := c.total_gains + m.gain_loss
      stock_gains :=
        if m.asset_category = "Stock" then c.stock_gains + m.gain_loss
        else c.stock_gains
      option_gains :=
        if m.asset_category = "Option" then c.option_gains + m.gain_loss
        else c.option_gains
      other_gains :=
        if m.asset_category ≠ "Stock" ∧ m.asset_category ≠ "Option" then
          c.other_gains + m.gain_loss
        else c.other_gains }
  else
    { c with
      total_losses := c.total_losses + |m.gain_loss|
      stock_losses :=
        if m.asset_category = "Stock" then c.stock_losses + |m.gain_loss|
        else c.stock_losses
      option_losses :=
        if m.asset_category = "Option" then c.option_losses + |m.gain_loss|
        else c.option_losses
      other_losses :=
        if m.asset_category ≠ "Stock" ∧ m.asset_category ≠ "Option" then
          c.other_losses + |m.gain_loss|
        else c.other_losses }

/-- The result dictionary of `_process_fifo_gains_by_category`. -/
structure GainsByCategory where
  totals : CatTotals
  detailed_transactions : List FifoMatch
  stock_gains_eur : ℚ
  stock_losses_eur : ℚ
  option_gains_eur : ℚ
  option_losses_eur : ℚ
  other_gains_eur : ℚ
  other_losses_eur : ℚ
  deriving DecidableEq, Repr

/-- `_process_fifo_gains_by_category`: run the FIFO matcher over every
symbol group, accumulate the per-category USD totals over the emitted
matches in order, and compute the EUR category totals as unrounded sums
over the detailed transactions (`gain_loss_eur > 0` to gains,
`gain_loss_eur < 0` to losses). -/
def process_fifo_gains_by_category (table : RateTable)
    (groups : List (String × SymbolGroup)) : GainsByCategory :=
  let detailed :=
    (groups.map fun g => (processSells table g.1 g.2.buys g.2.sells).1).flatten
  { totals := detailed.foldl catStep CatTotals.zero
    detailed_transactions := detailed
    stock_gains_eur :=
      ((detailed.filter fun m =>
        m.asset_category = "Stock" ∧ 0 < m.gain_loss_eur).map
        (·.gain_loss_eur)).sum
    stock_losses_eur :=
      ((detailed.filter fun m =>
        m.asset_category = "Stock" ∧ m.gain_loss_eur < 0).map
        (fun m => |m.gain_loss_eur|)).sum
    option_gains_eur :=
      ((detailed.filter fun m =>
        m.asset_category = "Option" ∧ 0 < m.gain_loss_eur).map
        (·.gain_loss_eur)).sum
    option_losses_eur :=
      ((detailed.filter fun m =>
        m.asset_category = "Option" ∧ m.gain_loss_eur < 0).map
        (fun m => |m.gain_loss_eur|)).sum
    other_gains_eur :=
      ((detailed.filter fun m =>
        m.asset_category ≠ "Stock" ∧ m.asset_category ≠ "Option" ∧
          0 < m.gain_loss_eur).map (·.gain_loss_eur)).sum
    other_losses_eur :=
      ((detailed.filter fun m =>
        m.asset_category ≠ "Stock" ∧ m.asset_category ≠ "Option" ∧
          m.gain_loss_eur < 0).map (fun m => |m.gain_loss_eur|)).sum }

/-- The year restriction of `_build_gains_query_conditions`: no filter,
a fixed year, or `ytd` carrying the current year that
`datetime.now().year` supplies. -/
inductive YearFilter where
  | all : YearFilter
  | ytd : Nat → YearFilter
  | year : Nat → YearFilter
  deriving DecidableEq, Repr

/-- The WHERE clause built by `_build_gains_query_conditions`, as the row
predicate it induces: trade-or-receive-deliver rows, optionally
restricted to one symbol, optionally restricted by
`substr(Date, 1, 4) = year`. -/
def includedInGainsQuery (symbolF : Option String) (yf : YearFilter)
    (t : TransRow) : Bool :=
  (t.typ == "Trade" || t.typ == "Receive Deliver") &&
    (match symbolF with
     | none => true
     | some s => t.Symbol == s) &&
    (match yf with
     | .all => true
     | .ytd cy => yearOf t.Date == cy
     | .year y => yearOf t.Date == y)

/-- The dictionary returned by `calculate_realized_gains_losses`. -/
structure RealizedResult where
  total_gains : ℚ
  total_losses : ℚ
  net_gain_loss : ℚ
  detailed_transactions : List FifoMatch
  stock_gains : ℚ
  stock_losses : ℚ
  stock_net_gain_loss : ℚ
  option_gains : ℚ
  option_losses : ℚ
  option_net_gain_loss : ℚ
  other_gains : ℚ
  other_losses : ℚ
  other_net_gain_loss : ℚ
  stock_gains_eur : ℚ
  stock_losses_eur : ℚ
  option_gains_eur : ℚ
  option_losses_eur : ℚ
  other_gains_eur : ℚ
  other_losses_eur : ℚ
  deriving DecidableEq, Repr

/-- `calculate_realized_gains_losses`: filter the date-ascending
transaction snapshot by the query conditions, group by symbol, run the
categorised FIFO matcher, and assemble the result dictionary. -/
def calculate_realized_gains_losses (table : RateTable)
    (symbolF : Option String) (yf : YearFilter) (ts : List TransRow) :
    RealizedResult :=
  let r := process_fifo_gains_by_category table
    (group_transactions_by_symbol
      (ts.filter (includedInGainsQuery symbolF yf)))
  { total_gains := r.totals.total_gains
    total_losses := r.totals.total_losses
    net_gain_loss := r.totals.total_gains - r.totals.total_losses
    detailed_transactions := r.detailed_transactions
    stock_gains := r.totals.stock_gains
    stock_losses := r.totals.stock_losses
    stock_net_gain_loss := r.totals.stock_gains - r.totals.stock_losses
    option_gains := r.totals.option_gains
    option_losses := r.totals.option_losses
    option_net_gain_loss := r.totals.option_gains - r.totals.option_losses
    other_gains := r.totals.other_gains
    other_losses := r.totals.other_losses
    other_net_gain_loss := r.totals.other_gains - r.totals.other_losses
    stock_gains_eur := r.stock_gains_eur
    stock_losses_eur := r.stock_losses_eur
    option_gains_eur := r.option_gains_eur
    option_losses_eur := r.option_losses_eur
    other_gains_eur := r.other_gains_eur
    other_losses_eur := r.other_losses_eur }

/-! ### C1: FIFO consumes the oldest lot first -/

/-- C1: with lots opened at strictly increasing dates and a single
closing transaction of positive quantity strictly smaller than the first
lot's quantity, the matcher emits exactly the one match built from the
first lot (so its `buy_date` is the first lot's date), shrinks the first
lot's quantity by the closed quantity with `total_cost` and `fees` scaled
by the retained fraction, and leaves every later lot unchanged. -/
theorem C1_fifo_oldest_lot_only (table : RateTable) (symbol : String)
    (b1 : BuyLot) (rest : List BuyLot) (sell : SellTx)
    (hdates : List.Chain' (· < ·) ((b1 :: rest).map BuyLot.date))
    (hpos : 0 < sell.quantity) (hlt : sell.quantity < b1.quantity) :
    processSells table symbol (b1 :: rest) [sell] =
      ([mkMatch table symbol b1 sell sell.quantity],
        { b1 with
          quantity := b1.quantity - sell.quantity
          total_cost :=
            b1.total_cost * ((b1.quantity - sell.quantity) / b1.quantity)
          fees :=
            b1.fees * ((b1.quantity - sell.quantity) / b1.quantity) }
        :: rest) ∧
      (mkMatch table symbol b1 sell sell.quantity).buy_date = b1.date := by
  constructor
  · unfold processSells
    simp only [List.foldl]
    rw [processSell]
    rw [if_neg (not_le.mpr hpos), if_neg (not_le.mpr hlt)]
    have hq : (0 : ℚ) < b1.quantity - sell.quantity := sub_pos.mpr hlt
    have hcancel : b1.quantity - sell.quantity + sell.quantity =
        b1.quantity := by ring
    simp only [if_pos hq, hcancel, List.nil_append]
  · rfl

/-- Witness for C1 at a concrete two-lot queue and a close of 4 units
against a first lot of 10 units. -/
theorem C1_fifo_oldest_lot_only_witness :
    processSells [] "ABC" [⟨20240101, 10, 5, 50, 2, "Stock"⟩,
        ⟨20240201, 7, 6, 42, 1, "Stock"⟩]
      [⟨20240301, 4, 8, 32, 0, "Stock"⟩] =
      ([mkMatch [] "ABC" ⟨20240101, 10, 5, 50, 2, "Stock"⟩
          ⟨20240301, 4, 8, 32, 0, "Stock"⟩ 4],
        ⟨20240101, 10 - 4, 5, 50 * ((10 - 4) / 10), 2 * ((10 - 4) / 10),
          "Stock"⟩ :: [⟨20240201, 7, 6, 42, 1, "Stock"⟩]) ∧
      (mkMatch [] "ABC" ⟨20240101, 10, 5, 50, 2, "Stock"⟩
        ⟨20240301, 4, 8, 32, 0, "Stock"⟩ 4).buy_date = 20240101 :=
  C1_fifo_oldest_lot_only [] "ABC" ⟨20240101, 10, 5, 50, 2, "Stock"⟩
    [⟨20240201, 7, 6, 42, 1, "Stock"⟩] ⟨20240301, 4, 8, 32, 0, "Stock"⟩
    (by simp) (by norm_num) (by norm_num)

/-! ### C2: conservation laws -/

theorem processSell_quantity_sum (table : RateTable) (symbol : String)
    (sell : SellTx) :
    ∀ (bs : List BuyLot) (remaining : ℚ),
    (∀ b ∈ bs, 0 ≤ b.quantity) → 0 ≤ remaining →
    remaining ≤ (bs.map (·.quantity)).sum →
    (((processSell table symbol sell bs remaining).1.map
      (·.quantity)).sum) = remaining := by
  intro bs
  induction bs with
  | nil =>
    intro remaining _ h0 hle
    simp only [List.map_nil, List.sum_nil] at hle
    rw [processSell]
    simp [le_antisymm hle h0]
  | cons b bs ih =>
    intro remaining hq h0 hle
    rw [processSell]
    by_cases hr : remaining ≤ 0
    · simp [hr, le_antisymm hr h0]
    · rw [if_neg hr]
      by_cases hb : b.quantity ≤ remaining
      · rw [if_pos hb]
        simp only [List.map_cons, List.sum_cons]
        have hq0 : ∀ x ∈ bs, 0 ≤ x.quantity :=
          fun x hx => hq x (List.mem_cons_of_mem _ hx)
        have h0R : 0 ≤ remaining - b.quantity := sub_nonneg.mpr hb
        have hleR : remaining - b.quantity ≤ (bs.map (·.quantity)).sum := by
          simp only [List.map_cons, List.sum_cons] at hle
          linarith
        rw [ih (remaining - b.quantity) hq0 h0R hleR]
        show (mkMatch table symbol b sell b.quantity).quantity +
          (remaining - b.quantity) = remaining
        show b.quantity + (remaining - b.quantity) = remaining
        ring
      · rw [if_neg hb]
        show (mkMatch table symbol b sell remaining).quantity + 0 = remaining
        show remaining + 0 = remaining
        ring

/-- Every match the matcher emits satisfies
`gain_loss = proceeds - cost_basis` (by construction in
`_calculate_fifo_match`). -/
theorem processSell_gain_eq (table : RateTable) (symbol : String)
    (sell : SellTx) :
    ∀ (bs : List BuyLot) (remaining : ℚ),
    ∀ m ∈ (processSell table symbol sell bs remaining).1,
    m.gain_loss = m.proceeds - m.cost_basis := by
  intro bs
  induction bs with
  | nil => intro remaining m hm; rw [processSell] at hm; simp at hm
  | cons b bs ih =>
    intro remaining m hm
    rw [processSell] at hm
    by_cases hr : remaining ≤ 0
    · simp [hr] at hm
    · rw [if_neg hr] at hm
      by_cases hb : b.quantity ≤ remaining
      · rw [if_pos hb] at hm
        rcases List.mem_cons.mp hm with rfl | hm
        · rfl
        · exact ih _ m hm
      · rw [if_neg hb] at hm
        rcases List.mem_cons.mp hm with rfl | hm
        · rfl
        · simp at hm

theorem processSells_gain_eq (table : RateTable) (symbol : String)
    (sells : List SellTx) :
    ∀ (acc : List FifoMatch × List BuyLot),
    (∀ m ∈ acc.1, m.gain_loss = m.proceeds - m.cost_basis) →
    ∀ m ∈ (sells.foldl
      (fun acc sell =>
        let r := processSell table symbol sell acc.2 sell.quantity
        (acc.1 ++ r.1, r.2)) acc).1,
    m.gain_loss = m.proceeds - m.cost_basis := by
  induction sells with
  | nil => intro acc hacc m hm; exact hacc m hm
  | cons sell sells ih =>
    intro acc hacc m hm
    rw [List.foldl_cons] at hm
    refine ih _ ?_ m hm
    intro x hx
    rcases List.mem_append.mp hx with hx | hx
    · exact hacc x hx
    · exact processSell_gain_eq table symbol sell _ _ x hx

theorem pipeline_gain_eq (table : RateTable) (symbolF : Option String)
    (yf : YearFilter) (ts : List TransRow) :
    ∀ m ∈ (calculate_realized_gains_losses table symbolF yf
      ts).detailed_transactions,
    m.gain_loss = m.proceeds - m.cost_basis := by
  intro m hm
  unfold calculate_realized_gains_losses at hm
  simp only [process_fifo_gains_by_category, List.mem_flatten,
    List.mem_map] at hm
  obtain ⟨l, ⟨g, _, rfl⟩, hml⟩ := hm
  exact processSells_gain_eq table g.1 g.2.sells ([], g.2.buys)
    (by intro x hx; simp at hx) m hml

theorem sum_conservation {ms : List FifoMatch}
    (h : ∀ m ∈ ms, m.gain_loss = m.proceeds - m.cost_basis) :
    (ms.map (·.cost_basis)).sum + (ms.map (·.gain_loss)).sum =
      (ms.map (·.proceeds)).sum := by
  induction ms with
  | nil => simp
  | cons m ms ih =>
    simp only [List.map_cons, List.sum_cons]
    have hm := h m (List.mem_cons_self m ms)
    have hrest := ih (fun x hx => h x (List.mem_cons_of_mem _ hx))
    linarith

/-- C2: conservation. When the open quantity available to a closing
transaction is at least the closing quantity, the quantities of the
matches emitted for it sum to exactly the closing quantity; and over the
detailed transactions of any realized-gains report, the summed cost basis
plus the summed gain/loss equals the summed proceeds exactly (the
embedding computes in `ℚ`, so equality is exact, well within the claimed
`1e-9` tolerance). -/
theorem C2_conservation_laws (table : RateTable) (symbol : String)
    (sell : SellTx) (bs : List BuyLot)
    (hq : ∀ b ∈ bs, 0 ≤ b.quantity) (h0 : 0 ≤ sell.quantity)
    (hsuff : sell.quantity ≤ (bs.map (·.quantity)).sum) :
    (((processSell table symbol sell bs sell.quantity).1.map
      (·.quantity)).sum = sell.quantity) ∧
    (∀ (table2 : RateTable) (symbolF : Option String) (yf : YearFilter)
      (ts : List TransRow),
      (((calculate_realized_gains_losses table2 symbolF yf
          ts).detailed_transactions.map (·.cost_basis)).sum +
        ((calculate_realized_gains_losses table2 symbolF yf
          ts).detailed_transactions.map (·.gain_loss)).sum) =
        ((calculate_realized_gains_losses table2 symbolF yf
          ts).detailed_transactions.map (·.proceeds)).sum) := by
  constructor
  · exact processSell_quantity_sum table symbol sell bs sell.quantity hq h0
      hsuff
  · intro table2 symbolF yf ts
    exact sum_conservation (pipeline_gain_eq table2 symbolF yf ts)

/-- Witness for C2: a close of 9 units against lots of 4 and 6 units. -/
theorem C2_conservation_laws_witness :
    (((processSell [] "ABC" ⟨20240301, 9, 8, 72, 0, "Stock"⟩
      [⟨20240101, 4, 5, 20, 0, "Stock"⟩, ⟨20240201, 6, 6, 36, 0, "Stock"⟩]
      (9 : ℚ)).1.map (·.quantity)).sum = (9 : ℚ)) ∧
    (∀ (table2 : RateTable) (symbolF : Option String) (yf : YearFilter)
      (ts : List TransRow),
      (((calculate_realized_gains_losses table2 symbolF yf
          ts).detailed_transactions.map (·.cost_basis)).sum +
        ((calculate_realized_gains_losses table2 symbolF yf
          ts).detailed_transactions.map (·.gain_loss)).sum) =
        ((calculate_realized_gains_losses table2 symbolF yf
          ts).detailed_transactions.map (·.proceeds)).sum) := by
  have h := C2_conservation_laws [] "ABC" ⟨20240301, 9, 8, 72, 0, "Stock"⟩
    [⟨20240101, 4, 5, 20, 0, "Stock"⟩, ⟨20240201, 6, 6, 36, 0, "Stock"⟩]
    (by intro b hb; fin_cases hb <;> norm_num) (by norm_num)
    (by norm_num)
  exact ⟨h.1, h.2⟩

/-! ### C4: action routing in the grouping step -/

/-- Actions routed into the `buys` queue by the source. -/
def isBuyAction (t : TransRow) : Bool :=
  t.Action == "BUY_TO_OPEN" || t.Action == "BUY_TO_CLOSE"

/-- Actions routed into the `sells` list by the source. -/
def isSellAction (t : TransRow) : Bool :=
  t.Action == "SELL_TO_CLOSE" || t.Action == "SELL_TO_OPEN"

/-- Total number of buy entries across all symbol groups. -/
def sumBuysLen (gs : List (String × SymbolGroup)) : Nat :=
  (gs.map (fun g => g.2.buys.length)).sum

/-- Total number of sell entries across all symbol groups. -/
def sumSellsLen (gs : List (String × SymbolGroup)) : Nat :=
  (gs.map (fun g => g.2.sells.length)).sum

theorem applyTxToGroup_buys_len (g : SymbolGroup) (t : TransRow) :
    (applyTxToGroup g t).buys.length =
      g.buys.length + (if isBuyAction t then 1 else 0) := by
  unfold applyTxToGroup isBuyAction
  by_cases hb : t.Action = "BUY_TO_OPEN" ∨ t.Action = "BUY_TO_CLOSE"
  · rw [if_pos hb]
    simp only [List.length_append, List.length_cons, List.length_nil]
    have : (t.Action == "BUY_TO_OPEN" || t.Action == "BUY_TO_CLOSE") =
        true := by
      rcases hb with h | h <;> simp [h]
    rw [this]
    simp
  · rw [if_neg hb]
    have : (t.Action == "BUY_TO_OPEN" || t.Action == "BUY_TO_CLOSE") =
        false := by
      simp only [Bool.or_eq_false_iff, beq_eq_false_iff_ne]
      exact ⟨fun h => hb (Or.inl h), fun h => hb (Or.inr h)⟩
    rw [this]
    by_cases hs : t.Action = "SELL_TO_CLOSE" ∨ t.Action = "SELL_TO_OPEN" <;>
      simp [hs]

theorem applyTxToGroup_sells_len (g : SymbolGroup) (t : TransRow) :
    (applyTxToGroup g t).sells.length =
      g.sells.length + (if isSellAction t then 1 else 0) := by
  unfold applyTxToGroup isSellAction
  by_cases hb : t.Action = "BUY_TO_OPEN" ∨ t.Action = "BUY_TO_CLOSE"
  · rw [if_pos hb]
    have : (t.Action == "SELL_TO_CLOSE" || t.Action == "SELL_TO_OPEN") =
        false := by
      simp only [Bool.or_eq_false_iff, beq_eq_false_iff_ne]
      rcases hb with h | h <;> exact ⟨by simp [h], by simp [h]⟩
    rw [this]
    simp
  · rw [if_neg hb]
    by_cases hs : t.Action = "SELL_TO_CLOSE" ∨ t.Action = "SELL_TO_OPEN"
    · rw [if_pos hs]
      have : (t.Action == "SELL_TO_CLOSE" || t.Action == "SELL_TO_OPEN") =
          true := by
        rcases hs with h | h <;> simp [h]
      rw [this]
      simp
    · rw [if_neg hs]
      have : (t.Action == "SELL_TO_CLOSE" || t.Action == "SELL_TO_OPEN") =
          false := by
        simp only [Bool.or_eq_false_iff, beq_eq_false_iff_ne]
        exact ⟨fun h => hs (Or.inl h), fun h => hs (Or.inr h)⟩
      rw [this]
      simp

theorem sumBuysLen_updateFirst (k : String) (f : SymbolGroup → SymbolGroup)
    (d : Nat) (hf : ∀ g, (f g).buys.length = g.buys.length + d) :
    ∀ (acc : List (String × SymbolGroup)),
    (acc.any (fun p => p.1 = k)) = true →
    sumBuysLen (updateFirst k f acc) = sumBuysLen acc + d := by
  intro acc
  induction acc with
  | nil => intro h; simp at h
  | cons p ps ih =>
    intro h
    rw [updateFirst]
    by_cases hp : p.1 = k
    · rw [if_pos hp]
      simp only [sumBuysLen, List.map_cons, List.sum_cons, hf p.2]
      omega
    · rw [if_neg hp]
      have hany : (ps.any (fun p => p.1 = k)) = true := by
        simp only [List.any_cons] at h
        rcases Bool.or_eq_true_iff.mp h with h1 | h1
        · exact absurd (by simpa using h1) hp
        · exact h1
      simp only [sumBuysLen, List.map_cons, List.sum_cons] at ih ⊢
      rw [ih hany]
      omega

theorem sumSellsLen_updateFirst (k : String)
    (f : SymbolGroup → SymbolGroup) (d : Nat)
    (hf : ∀ g, (f g).sells.length = g.sells.length + d) :
    ∀ (acc : List (String × SymbolGroup)),
    (acc.any (fun p => p.1 = k)) = true →
    sumSellsLen (updateFirst k f acc) = sumSellsLen acc + d := by
  intro acc
  induction acc with
  | nil => intro h; simp at h
  | cons p ps ih =>
    intro h
    rw [updateFirst]
    by_cases hp : p.1 = k
    · rw [if_pos hp]
      simp only [sumSellsLen, List.map_cons, List.sum_cons, hf p.2]
      omega
    · rw [if_neg hp]
      have hany : (ps.any (fun p => p.1 = k)) = true := by
        simp only [List.any_cons] at h
        rcases Bool.or_eq_true_iff.mp h with h1 | h1
        · exact absurd (by simpa using h1) hp
        · exact h1
      simp only [sumSellsLen, List.map_cons, List.sum_cons] at ih ⊢
      rw [ih hany]
      omega

theorem groupStep_buys_len (acc : List (String × SymbolGroup))
    (t : TransRow) :
    sumBuysLen (groupStep acc t) =
      sumBuysLen acc + (if isBuyAction t then 1 else 0) := by
  unfold groupStep
  by_cases h : (acc.any (fun p => p.1 = t.Symbol)) = true
  · rw [if_pos h]
    exact sumBuysLen_updateFirst t.Symbol _ _
      (fun g => applyTxToGroup_buys_len g t) acc h
  · rw [if_neg h]
    simp only [sumBuysLen, List.map_append, List.sum_append,
      List.map_cons, List.sum_cons, List.map_nil, List.sum_nil]
    have := applyTxToGroup_buys_len ⟨[], [], t.Asset_Category.getD "Unknown"⟩ t
    simp only [List.length_nil] at this
    rw [this]
    omega

theorem groupStep_sells_len (acc : List (String × SymbolGroup))
    (t : TransRow) :
    sumSellsLen (groupStep acc t) =
      sumSellsLen acc + (if isSellAction t then 1 else 0) := by
  unfold groupStep
  by_cases h : (acc.any (fun p => p.1 = t.Symbol)) = true
  · rw [if_pos h]
    exact sumSellsLen_updateFirst t.Symbol _ _
      (fun g => applyTxToGroup_sells_len g t) acc h
  · rw [if_neg h]
    simp only [sumSellsLen, List.map_append, List.sum_append,
      List.map_cons, List.sum_cons, List.map_nil, List.sum_nil]
    have := applyTxToGroup_sells_len ⟨[], [], t.Asset_Category.getD "Unknown"⟩ t
    simp only [List.length_nil] at this
    rw [this]
    omega

theorem group_counts (ts : List TransRow) :
    ∀ (acc : List (String × SymbolGroup)),
    sumBuysLen (ts.foldl groupStep acc) =
      sumBuysLen acc + ts.countP isBuyAction ∧
    sumSellsLen (ts.foldl groupStep acc) =
      sumSellsLen acc + ts.countP isSellAction := by
  induction ts with
  | nil => intro acc; simp
  | cons t ts ih =>
    intro acc
    rw [List.foldl_cons]
    obtain ⟨ihb, ihs⟩ := ih (groupStep acc t)
    constructor
    · rw [ihb, groupStep_buys_len, List.countP_cons]
      by_cases h : isBuyAction t <;> simp [h] <;> omega
    · rw [ihs, groupStep_sells_len, List.countP_cons]
      by_cases h : isSellAction t <;> simp [h] <;> omega

/-- A concrete `BUY_TO_CLOSE` trade row. -/
def btcRow : TransRow :=
  { Date := 20240110, Symbol := "XYZ", typ := "Trade", Sub_Type := none
    Action := "BUY_TO_CLOSE", Quantity := some 5, Average_Price := some 10
    Total := some 50, Value := none, Fees := some 0, Commissions := some 0
    Asset_Category := some "Stock" }

/-- Counterexample to C4: a `BUY_TO_CLOSE` transaction does not behave as
a closing action — it is routed into the symbol's `buys` list, creating a
lot in the FIFO open-lot queue, and contributes no closing (sell)
entry. -/
theorem C4_buy_to_close_counterexample :
    group_transactions_by_symbol [btcRow] =
      [("XYZ", ⟨[toBuyLot btcRow], [], "Stock"⟩)] ∧
    (toBuyLot btcRow).quantity = 5 := by
  constructor
  · rfl
  · rfl

/-- C4 (amended): `BUY_TO_OPEN` and `BUY_TO_CLOSE` are both treated as
opening actions (each appends one lot to the symbol's open-lot queue),
while `SELL_TO_CLOSE` and `SELL_TO_OPEN` are the closing actions (each
appends one entry to the sells list); sell actions never add to the
open-lot queue and any other action is ignored. Stated through:
the grouping produces exactly one buy entry per buy-action row and one
sell entry per sell-action row, and the elementwise routing of
`applyTxToGroup`. -/
theorem C4_action_routing (ts : List TransRow) :
    (sumBuysLen (group_transactions_by_symbol ts) =
      ts.countP isBuyAction ∧
     sumSellsLen (group_transactions_by_symbol ts) =
      ts.countP isSellAction) ∧
    (∀ (t : TransRow) (g : SymbolGroup),
      (t.Action = "BUY_TO_OPEN" ∨ t.Action = "BUY_TO_CLOSE" →
        applyTxToGroup g t = { g with buys := g.buys ++ [toBuyLot t] }) ∧
      (t.Action = "SELL_TO_CLOSE" ∨ t.Action = "SELL_TO_OPEN" →
        applyTxToGroup g t =
          { g with sells := g.sells ++ [toSellTx t] })) := by
  constructor
  · have h := group_counts ts []
    unfold group_transactions_by_symbol
    simpa [sumBuysLen, sumSellsLen] using h
  · intro t g
    constructor
    · intro hb
      unfold applyTxToGroup
      rw [if_pos hb]
    · intro hs
      unfold applyTxToGroup
      have hnb : ¬(t.Action = "BUY_TO_OPEN" ∨ t.Action = "BUY_TO_CLOSE") := by
        rcases hs with h | h <;> rw [h] <;> decide
      rw [if_neg hnb, if_pos hs]

/-- Witness for C4 (amended): routing at the concrete `BUY_TO_CLOSE` row
and at a concrete `SELL_TO_OPEN` row. -/
theorem C4_action_routing_witness :
    applyTxToGroup ⟨[], [], "Stock"⟩ btcRow =
      { buys := [toBuyLot btcRow], sells := [],
        asset_category := "Stock" } ∧
    applyTxToGroup ⟨[], [], "Stock"⟩ { btcRow with Action := "SELL_TO_OPEN" } =
      { buys := [], sells := [toSellTx { btcRow with Action := "SELL_TO_OPEN" }],
        asset_category := "Stock" } := by
  constructor
  · have h := ((C4_action_routing []).2 btcRow ⟨[], [], "Stock"⟩).1
      (Or.inr rfl)
    simpa using h
  · have h := ((C4_action_routing []).2 { btcRow with Action := "SELL_TO_OPEN" }
      ⟨[], [], "Stock"⟩).2 (Or.inr rfl)
    simpa using h

/-! ### C5: the year restriction is applied to transactions, not matches -/

theorem processSell_dates (table : RateTable) (symbol : String)
    (sell : SellTx) (P : Date → Prop) :
    ∀ (bs : List BuyLot) (r : ℚ), (∀ b ∈ bs, P b.date) →
    (∀ m ∈ (processSell table symbol sell bs r).1,
      P m.buy_date ∧ m.sell_date = sell.date) ∧
    (∀ b ∈ (processSell table symbol sell bs r).2, P b.date) := by
  intro bs
  induction bs with
  | nil => intro r _; rw [processSell]; exact ⟨by simp, by simp⟩
  | cons b bs ih =>
    intro r hP
    have hPb : P b.date := hP b (List.mem_cons_self b bs)
    have hPbs : ∀ x ∈ bs, P x.date :=
      fun x hx => hP x (List.mem_cons_of_mem _ hx)
    rw [processSell]
    by_cases hr : r ≤ 0
    · rw [if_pos hr]
      exact ⟨by simp, by simpa using hP⟩
    · rw [if_neg hr]
      by_cases hb : b.quantity ≤ r
      · rw [if_pos hb]
        obtain ⟨ih1, ih2⟩ := ih (r - b.quantity) hPbs
        constructor
        · intro m hm
          rcases List.mem_cons.mp hm with rfl | hm
          · exact ⟨hPb, rfl⟩
          · exact ih1 m hm
        · exact ih2
      · rw [if_neg hb]
        constructor
        · intro m hm
          rcases List.mem_cons.mp hm with rfl | hm
          · exact ⟨hPb, rfl⟩
          · simp at hm
        · intro x hx
          rcases List.mem_cons.mp hx with rfl | hx
          · exact hPb
          · exact hPbs x hx

theorem processSells_dates (table : RateTable) (symbol : String)
    (P Q : Date → Prop) :
    ∀ (sells : List SellTx) (acc : List FifoMatch × List BuyLot),
    (∀ m ∈ acc.1, P m.buy_date ∧ Q m.sell_date) →
    (∀ b ∈ acc.2, P b.date) →
    (∀ s ∈ sells, Q s.date) →
    (∀ m ∈ (sells.foldl
      (fun acc sell =>
        let r := processSell table symbol sell acc.2 sell.quantity
        (acc.1 ++ r.1, r.2)) acc).1,
      P m.buy_date ∧ Q m.sell_date) := by
  intro sells
  induction sells with
  | nil => intro acc h1 _ _ m hm; exact h1 m hm
  | cons sell sells ih =>
    intro acc h1 h2 h3 m hm
    rw [List.foldl_cons] at hm
    obtain ⟨hm1, hm2⟩ := processSell_dates table symbol sell P acc.2
      sell.quantity h2
    refine ih (acc.1 ++ (processSell table symbol sell acc.2 sell.quantity).1,
      (processSell table symbol sell acc.2 sell.quantity).2) ?_ hm2
      (fun s hs => h3 s (List.mem_cons_of_mem _ hs)) m hm
    intro x hx
    rcases List.mem_append.mp hx with hx | hx
    · exact h1 x hx
    · obtain ⟨hP, hEq⟩ := hm1 x hx
      exact ⟨hP, hEq ▸ h3 sell (List.mem_cons_self sell sells)⟩

/-- The per-group date bound used while tracing the grouping fold. -/
def GroupDatesP (P : Date → Prop) (g : SymbolGroup) : Prop :=
  (∀ b ∈ g.buys, P b.date) ∧ (∀ s ∈ g.sells, P s.date)

theorem applyTxToGroup_dates (P : Date → Prop) (g : SymbolGroup)
    (t : TransRow) (hg : GroupDatesP P g) (ht : P t.Date) :
    GroupDatesP P (applyTxToGroup g t) := by
  unfold applyTxToGroup
  by_cases hb : t.Action = "BUY_TO_OPEN" ∨ t.Action = "BUY_TO_CLOSE"
  · rw [if_pos hb]
    refine ⟨?_, hg.2⟩
    intro x hx
    rcases List.mem_append.mp hx with hx | hx
    · exact hg.1 x hx
    · simp only [List.mem_singleton] at hx
      exact hx ▸ ht
  · rw [if_neg hb]
    by_cases hs : t.Action = "SELL_TO_CLOSE" ∨ t.Action = "SELL_TO_OPEN"
    · rw [if_pos hs]
      refine ⟨hg.1, ?_⟩
      intro x hx
      rcases List.mem_append.mp hx with hx | hx
      · exact hg.2 x hx
      · simp only [List.mem_singleton] at hx
        exact hx ▸ ht
    · rw [if_neg hs]
      exact hg

theorem updateFirst_preserves (Pr : SymbolGroup → Prop) (k : String)
    (f : SymbolGroup → SymbolGroup) (hf : ∀ g, Pr g → Pr (f g)) :
    ∀ (acc : List (String × SymbolGroup)), (∀ p ∈ acc, Pr p.2) →
    ∀ p ∈ updateFirst k f acc, Pr p.2 := by
  intro acc
  induction acc with
  | nil => intro _ p hp; simp [updateFirst] at hp
  | cons q qs ih =>
    intro hall p hp
    rw [updateFirst] at hp
    by_cases hq : q.1 = k
    · rw [if_pos hq] at hp
      rcases List.mem_cons.mp hp with rfl | hp
      · exact hf q.2 (hall q (List.mem_cons_self q qs))
      · exact hall p (List.mem_cons_of_mem _ hp)
    · rw [if_neg hq] at hp
      rcases List.mem_cons.mp hp with rfl | hp
      · exact hall p (List.mem_cons_self p qs)
      · exact ih (fun x hx => hall x (List.mem_cons_of_mem _ hx)) p hp

theorem group_dates (P : Date → Prop) (ts : List TransRow) :
    ∀ (acc : List (String × SymbolGroup)),
    (∀ t ∈ ts, P t.Date) → (∀ p ∈ acc, GroupDatesP P p.2) →
    ∀ p ∈ ts.foldl groupStep acc, GroupDatesP P p.2 := by
  induction ts with
  | nil => intro acc _ hacc p hp; exact hacc p hp
  | cons t ts ih =>
    intro acc hts hacc p hp
    rw [List.foldl_cons] at hp
    have ht : P t.Date := hts t (List.mem_cons_self t ts)
    refine ih _ (fun x hx => hts x (List.mem_cons_of_mem _ hx)) ?_ p hp
    intro q hq
    unfold groupStep at hq
    by_cases hany : (acc.any (fun p => p.1 = t.Symbol)) = true
    · rw [if_pos hany] at hq
      exact updateFirst_preserves (GroupDatesP P) t.Symbol _
        (fun g hg => applyTxToGroup_dates P g t hg ht) acc hacc q hq
    · rw [if_neg hany] at hq
      rcases List.mem_append.mp hq with hq | hq
      · exact hacc q hq
      · simp only [List.mem_singleton] at hq
        subst hq
        exact applyTxToGroup_dates P _ t ⟨by simp, by simp⟩ ht

theorem pipeline_match_years (table : RateTable)
    (symbolF : Option String) (y : Nat) (ts : List TransRow) :
    ∀ m ∈ (calculate_realized_gains_losses table symbolF (.year y)
      ts).detailed_transactions,
    yearOf m.buy_date = y ∧ yearOf m.sell_date = y := by
  intro m hm
  unfold calculate_realized_gains_losses at hm
  simp only [process_fifo_gains_by_category, List.mem_flatten,
    List.mem_map] at hm
  obtain ⟨l, ⟨g, hg, rfl⟩, hml⟩ := hm
  have hyears : ∀ t ∈ ts.filter (includedInGainsQuery symbolF (.year y)),
      yearOf t.Date = y := by
    intro t ht
    have := (List.mem_filter.mp ht).2
    unfold includedInGainsQuery at this
    simp only [Bool.and_eq_true, beq_iff_eq] at this
    exact this.2
  have hgd := group_dates (fun d => yearOf d = y) _ [] hyears (by simp) g hg
  have := processSells_dates table g.1 (fun d => yearOf d = y)
    (fun d => yearOf d = y) g.2.sells ([], g.2.buys) (by simp) hgd.1 hgd.2
  exact this m hml

/-- C5 (amended): `calculate_realized_gains_losses` applies the year
restriction to the transaction query itself — only transactions whose own
date lies in the requested year enter the FIFO matching — so every match
of a year-`y` report has both its buy date and its sell date inside year
`y`, and a cross-year buy/sell pair is never produced. -/
theorem C5_year_filter_on_transactions (table : RateTable)
    (symbolF : Option String) (y : Nat) (ts : List TransRow) :
    ((calculate_realized_gains_losses table symbolF (.year y)
      ts).detailed_transactions.all
      (fun m => (yearOf m.buy_date == y) && (yearOf m.sell_date == y))) =
      true := by
  rw [List.all_eq_true]
  intro m hm
  obtain ⟨h1, h2⟩ := pipeline_match_years table symbolF y ts m hm
  simp [h1, h2]

/-- A `BUY_TO_OPEN` trade row dated 2023-01-10. -/
def buy2023 : TransRow :=
  { Date := 20230110, Symbol := "ABC", typ := "Trade", Sub_Type := none
    Action := "BUY_TO_OPEN", Quantity := some 10, Average_Price := some 10
    Total := some 100, Value := none, Fees := some 0, Commissions := some 0
    Asset_Category := some "Stock" }

/-- A `SELL_TO_CLOSE` trade row dated 2024-01-10 closing the 2023 lot. -/
def sell2024 : TransRow :=
  { Date := 20240110, Symbol := "ABC", typ := "Trade", Sub_Type := none
    Action := "SELL_TO_CLOSE", Quantity := some 10, Average_Price := some 15
    Total := some 150, Value := none, Fees := some 0, Commissions := some 0
    Asset_Category := some "Stock" }

/-- Modelled from the spec (§4.4): the claim's description of the report —
run the FIFO matching over the full transaction history and then restrict
the resulting matches to those whose `sell_date` falls within
`[y-01-01, y-12-31]`. Used only to exhibit the divergence from the
code. -/
def specMatchesBySellDate (table : RateTable) (ts : List TransRow)
    (y : Nat) : List FifoMatch :=
  (process_fifo_gains_by_category table
    (group_transactions_by_symbol
      (ts.filter (includedInGainsQuery none .all)))).detailed_transactions
    |>.filter (fun m =>
      decide (y * 10000 + 101 ≤ m.sell_date) &&
      decide (m.sell_date ≤ y * 10000 + 1231))

/-- Counterexample to C5: for a lot bought in 2023 and sold in 2024, the
year-2024 report of the code contains no match at all (the 2023 buy is
filtered out before matching), while the spec's full-history matching
restricted by sell date contains exactly one match whose buy date is the
2023 purchase. -/
theorem C5_cross_year_counterexample :
    (calculate_realized_gains_losses [] none (.year 2024)
      [buy2023, sell2024]).detailed_transactions = [] ∧
    (specMatchesBySellDate [] [buy2023, sell2024] 2024).map (·.buy_date) =
      [20230110] := by
  constructor
  · rfl
  · unfold specMatchesBySellDate
    have hfilter : ([buy2023, sell2024].filter
        (includedInGainsQuery none .all)) = [buy2023, sell2024] := rfl
    rw [hfilter]
    have hgroup : group_transactions_by_symbol [buy2023, sell2024] =
        [("ABC", ⟨[toBuyLot buy2023], [toSellTx sell2024], "Stock"⟩)] := rfl
    rw [hgroup]
    simp only [process_fifo_gains_by_category, processSells, List.map_cons,
      List.map_nil, List.foldl_cons, List.foldl_nil, List.nil_append,
      List.flatten]
    rw [processSell]
    have hq : (toSellTx sell2024).quantity = 10 := by
      simp [toSellTx, sell2024, absOr0]
    have hbq : (toBuyLot buy2023).quantity = 10 := by
      simp [toBuyLot, buy2023, absOr0]
    rw [if_neg (by rw [hq]; norm_num), if_pos (by rw [hq, hbq])]
    rw [processSell]
    simp only [List.append_nil]
    have hsd : (mkMatch [] "ABC" (toBuyLot buy2023) (toSellTx sell2024)
        (toBuyLot buy2023).quantity).sell_date = 20240110 := rfl
    rw [List.filter_cons]
    rw [if_pos (by rw [hsd]; decide)]
    have hbd : (mkMatch [] "ABC" (toBuyLot buy2023) (toSellTx sell2024)
        (toBuyLot buy2023).quantity).buy_date = 20230110 := rfl
    simp [hbd]

/-! ### C6: a close larger than the open quantity -/

/-- C6 (amended): when a closing transaction's quantity exceeds the total
open quantity, the matcher consumes the entire open-lot queue and the
emitted match quantities sum to exactly the open quantity — the excess is
left unmatched and nothing is matched against nonexistent lots. (No
data-integrity warning exists in the report output; see the
counterexample.) -/
theorem C6_excess_close_exhausts_queue (table : RateTable)
    (symbol : String) (sell : SellTx) :
    ∀ (bs : List BuyLot), (∀ b ∈ bs, 0 ≤ b.quantity) →
    (bs.map (·.quantity)).sum < sell.quantity →
    (processSell table symbol sell bs sell.quantity).2 = [] ∧
    ((processSell table symbol sell bs sell.quantity).1.map
      (·.quantity)).sum = (bs.map (·.quantity)).sum := by
  suffices h : ∀ (bs : List BuyLot) (r : ℚ), (∀ b ∈ bs, 0 ≤ b.quantity) →
      (bs.map (·.quantity)).sum < r →
      (processSell table symbol sell bs r).2 = [] ∧
      ((processSell table symbol sell bs r).1.map (·.quantity)).sum =
        (bs.map (·.quantity)).sum by
    intro bs hq hex
    exact h bs sell.quantity hq hex
  intro bs
  induction bs with
  | nil => intro r _ _; rw [processSell]; simp
  | cons b bs ih =>
    intro r hq hex
    have hb0 : 0 ≤ b.quantity := hq b (List.mem_cons_self b bs)
    have hbs0 : ∀ x ∈ bs, 0 ≤ x.quantity :=
      fun x hx => hq x (List.mem_cons_of_mem _ hx)
    have hsum0 : 0 ≤ (bs.map (·.quantity)).sum :=
      List.sum_nonneg (by
        intro x hx
        obtain ⟨y, hy, rfl⟩ := List.mem_map.mp hx
        exact hbs0 y hy)
    simp only [List.map_cons, List.sum_cons] at hex
    have hr0 : 0 < r := lt_of_le_of_lt (by linarith) hex
    have hble : b.quantity ≤ r := by linarith
    rw [processSell, if_neg (not_le.mpr hr0), if_pos hble]
    obtain ⟨ih1, ih2⟩ := ih (r - b.quantity) hbs0 (by linarith)
    refine ⟨ih1, ?_⟩
    simp only [List.map_cons, List.sum_cons]
    rw [ih2]
    rfl

/-- Witness for C6 (amended): one 10-unit lot against a 15-unit close. -/
theorem C6_excess_close_exhausts_queue_witness :
    (processSell [] "XYZ" ⟨20240210, 15, 10, 150, 0, "Stock"⟩
      [⟨20240110, 10, 10, 100, 0, "Stock"⟩] (15 : ℚ)).2 = [] ∧
    ((processSell [] "XYZ" ⟨20240210, 15, 10, 150, 0, "Stock"⟩
      [⟨20240110, 10, 10, 100, 0, "Stock"⟩] (15 : ℚ)).1.map
      (·.quantity)).sum =
      (([⟨20240110, 10, 10, 100, 0, "Stock"⟩] : List BuyLot).map
        (·.quantity)).sum :=
  C6_excess_close_exhausts_queue [] "XYZ"
    ⟨20240210, 15, 10, 150, 0, "Stock"⟩
    [⟨20240110, 10, 10, 100, 0, "Stock"⟩]
    (by intro b hb; fin_cases hb; norm_num) (by norm_num)

/-- A 10-unit `BUY_TO_OPEN` trade row. -/
def buyRowTen : TransRow :=
  { Date := 20240110, Symbol := "XYZ", typ := "Trade", Sub_Type := none
    Action := "BUY_TO_OPEN", Quantity := some 10, Average_Price := some 10
    Total := some 100, Value := none, Fees := some 0, Commissions := some 0
    Asset_Category := some "Stock" }

/-- A 15-unit `SELL_TO_CLOSE` row: closes 5 more units than were ever
opened. -/
def sellRowFifteen : TransRow :=
  { Date := 20240210, Symbol := "XYZ", typ := "Trade", Sub_Type := none
    Action := "SELL_TO_CLOSE", Quantity := some 15, Average_Price := some 10
    Total := some 150, Value := none, Fees := some 0, Commissions := some 0
    Asset_Category := some "Stock" }

/-- A 10-unit `SELL_TO_CLOSE` row: closes exactly the open quantity. -/
def sellRowTen : TransRow :=
  { Date := 20240210, Symbol := "XYZ", typ := "Trade", Sub_Type := none
    Action := "SELL_TO_CLOSE", Quantity := some 10, Average_Price := some 10
    Total := some 100, Value := none, Fees := some 0, Commissions := some 0
    Asset_Category := some "Stock" }

/-- Counterexample to C6: the report output records no data-integrity
warning. The first input closes 15 units against 10 open (5 units of
excess); the second closes exactly 10 against 10 (no excess); yet
`calculate_realized_gains_losses` returns the *identical* result
dictionary for both, so the output cannot carry any warning recording the
excess-close condition — it is dropped silently. -/
theorem C6_no_warning_counterexample :
    (toBuyLot buyRowTen).quantity < (toSellTx sellRowFifteen).quantity ∧
    (toSellTx sellRowTen).quantity ≤ (toBuyLot buyRowTen).quantity ∧
    calculate_realized_gains_losses [] none .all
      [buyRowTen, sellRowFifteen] =
      calculate_realized_gains_losses [] none .all [buyRowTen, sellRowTen] := by
  refine ⟨?_, ?_, ?_⟩
  · norm_num [toBuyLot, toSellTx, buyRowTen, sellRowFifteen, absOr0]
  · norm_num [toBuyLot, toSellTx, buyRowTen, sellRowTen, absOr0]
  · have hgA : group_transactions_by_symbol
        ([buyRowTen, sellRowFifteen].filter
          (includedInGainsQuery none .all)) =
        [("XYZ", ⟨[toBuyLot buyRowTen], [toSellTx sellRowFifteen],
          "Stock"⟩)] := rfl
    have hgB : group_transactions_by_symbol
        ([buyRowTen, sellRowTen].filter (includedInGainsQuery none .all)) =
        [("XYZ", ⟨[toBuyLot buyRowTen], [toSellTx sellRowTen],
          "Stock"⟩)] := rfl
    have hqb : (toBuyLot buyRowTen).quantity = 10 := by
      norm_num [toBuyLot, buyRowTen, absOr0]
    have hmatchA : processSells [] "XYZ" [toBuyLot buyRowTen]
        [toSellTx sellRowFifteen] =
        ([mkMatch [] "XYZ" (toBuyLot buyRowTen) (toSellTx sellRowFifteen)
          (toBuyLot buyRowTen).quantity], []) := by
      have hqs : (toSellTx sellRowFifteen).quantity = 15 := by
        norm_num [toSellTx, sellRowFifteen, absOr0]
      unfold processSells
      simp only [List.foldl_cons, List.foldl_nil, List.nil_append]
      rw [processSell, if_neg (by rw [hqs]; norm_num),
        if_pos (by rw [hqs, hqb]; norm_num), processSell]
    have hmatchB : processSells [] "XYZ" [toBuyLot buyRowTen]
        [toSellTx sellRowTen] =
        ([mkMatch [] "XYZ" (toBuyLot buyRowTen) (toSellTx sellRowTen)
          (toBuyLot buyRowTen).quantity], []) := by
      have hqs : (toSellTx sellRowTen).quantity = 10 := by
        norm_num [toSellTx, sellRowTen, absOr0]
      unfold processSells
      simp only [List.foldl_cons, List.foldl_nil, List.nil_append]
      rw [processSell, if_neg (by rw [hqs]; norm_num),
        if_pos (by rw [hqs, hqb]), processSell]
    have hm_eq : mkMatch [] "XYZ" (toBuyLot buyRowTen)
        (toSellTx sellRowFifteen) (toBuyLot buyRowTen).quantity =
        mkMatch [] "XYZ" (toBuyLot buyRowTen) (toSellTx sellRowTen)
          (toBuyLot buyRowTen).quantity := by
      unfold mkMatch calculate_fifo_match rateOr1 get_exchange_rate
        findExact maxByDate toBuyLot toSellTx absOr0 buyRowTen
        sellRowFifteen sellRowTen
      norm_num
    unfold calculate_realized_gains_losses
    rw [hgA, hgB]
    unfold process_fifo_gains_by_category
    simp only [List.map_cons, List.map_nil, List.flatten, List.append_nil]
    rw [hmatchA, hmatchB, hm_eq]

/-! ### C7: missing exchange rate falls back to rate 1.0 -/

/-- C7 (amended): EUR match fields are never absent. When no exchange
rate resolves for the buy and sell dates, the matcher substitutes the
fallback rate `1.0` (`get_exchange_rate(...) or 1.0`), so every emitted
match carries definite EUR fields numerically equal to the USD fields,
and the USD fields are computed as usual. -/
theorem C7_missing_rate_fallback (table : RateTable) (symbol : String)
    (sell : SellTx) :
    ∀ (bs : List BuyLot) (r : ℚ),
    (∀ b ∈ bs, get_exchange_rate table b.date = none) →
    get_exchange_rate table sell.date = none →
    ∀ m ∈ (processSell table symbol sell bs r).1,
    m.cost_basis_eur = m.cost_basis ∧ m.proceeds_eur = m.proceeds ∧
    m.gain_loss_eur = m.gain_loss ∧ m.buy_price_eur = m.buy_price ∧
    m.sell_price_eur = m.sell_price := by
  intro bs
  induction bs with
  | nil => intro r _ _ m hm; rw [processSell] at hm; simp at hm
  | cons b bs ih =>
    intro r hb hs m hm
    have hb1 : get_exchange_rate table b.date = none :=
      hb b (List.mem_cons_self b bs)
    have hbs : ∀ x ∈ bs, get_exchange_rate table x.date = none :=
      fun x hx => hb x (List.mem_cons_of_mem _ hx)
    have hmk : ∀ q, (mkMatch table symbol b sell q).cost_basis_eur =
        (mkMatch table symbol b sell q).cost_basis ∧
        (mkMatch table symbol b sell q).proceeds_eur =
        (mkMatch table symbol b sell q).proceeds ∧
        (mkMatch table symbol b sell q).gain_loss_eur =
        (mkMatch table symbol b sell q).gain_loss ∧
        (mkMatch table symbol b sell q).buy_price_eur =
        (mkMatch table symbol b sell q).buy_price ∧
        (mkMatch table symbol b sell q).sell_price_eur =
        (mkMatch table symbol b sell q).sell_price := by
      intro q
      unfold mkMatch rateOr1 calculate_fifo_match
      rw [hb1, hs]
      simp
    rw [processSell] at hm
    by_cases hr : r ≤ 0
    · simp [hr] at hm
    · rw [if_neg hr] at hm
      by_cases hq : b.quantity ≤ r
      · rw [if_pos hq] at hm
        rcases List.mem_cons.mp hm with rfl | hm
        · exact hmk b.quantity
        · exact ih _ hbs hs m hm
      · rw [if_neg hq] at hm
        rcases List.mem_cons.mp hm with rfl | hm
        · exact hmk r
        · simp at hm

/-- Witness for C7 (amended): the empty rate table and a one-lot close;
the emitted match's EUR fields equal its USD fields. -/
theorem C7_missing_rate_fallback_witness :
    (mkMatch [] "XYZ" ⟨20240110, 10, 10, 100, 0, "Stock"⟩
      ⟨20240210, 10, 10, 100, 0, "Stock"⟩ 10).cost_basis_eur =
      (mkMatch [] "XYZ" ⟨20240110, 10, 10, 100, 0, "Stock"⟩
        ⟨20240210, 10, 10, 100, 0, "Stock"⟩ 10).cost_basis ∧
    (mkMatch [] "XYZ" ⟨20240110, 10, 10, 100, 0, "Stock"⟩
      ⟨20240210, 10, 10, 100, 0, "Stock"⟩ 10).proceeds_eur =
      (mkMatch [] "XYZ" ⟨20240110, 10, 10, 100, 0, "Stock"⟩
        ⟨20240210, 10, 10, 100, 0, "Stock"⟩ 10).proceeds ∧
    (mkMatch [] "XYZ" ⟨20240110, 10, 10, 100, 0, "Stock"⟩
      ⟨20240210, 10, 10, 100, 0, "Stock"⟩ 10).gain_loss_eur =
      (mkMatch [] "XYZ" ⟨20240110, 10, 10, 100, 0, "Stock"⟩
        ⟨20240210, 10, 10, 100, 0, "Stock"⟩ 10).gain_loss ∧
    (mkMatch [] "XYZ" ⟨20240110, 10, 10, 100, 0, "Stock"⟩
      ⟨20240210, 10, 10, 100, 0, "Stock"⟩ 10).buy_price_eur =
      (mkMatch [] "XYZ" ⟨20240110, 10, 10, 100, 0, "Stock"⟩
        ⟨20240210, 10, 10, 100, 0, "Stock"⟩ 10).buy_price ∧
    (mkMatch [] "XYZ" ⟨20240110, 10, 10, 100, 0, "Stock"⟩
      ⟨20240210, 10, 10, 100, 0, "Stock"⟩ 10).sell_price_eur =
      (mkMatch [] "XYZ" ⟨20240110, 10, 10, 100, 0, "Stock"⟩
        ⟨20240210, 10, 10, 100, 0, "Stock"⟩ 10).sell_price := by
  have hlist : (processSell [] "XYZ" ⟨20240210, 10, 10, 100, 0, "Stock"⟩
      [⟨20240110, 10, 10, 100, 0, "Stock"⟩] (10 : ℚ)).1 =
      [mkMatch [] "XYZ" ⟨20240110, 10, 10, 100, 0, "Stock"⟩
        ⟨20240210, 10, 10, 100, 0, "Stock"⟩ 10] := by
    rw [processSell, if_neg (by norm_num), if_pos (by norm_num),
      processSell]
  exact C7_missing_rate_fallback [] "XYZ"
    ⟨20240210, 10, 10, 100, 0, "Stock"⟩
    [⟨20240110, 10, 10, 100, 0, "Stock"⟩] 10
    (by intro b hb; fin_cases hb; rfl) rfl
    (mkMatch [] "XYZ" ⟨20240110, 10, 10, 100, 0, "Stock"⟩
      ⟨20240210, 10, 10, 100, 0, "Stock"⟩ 10)
    (hlist ▸ List.mem_cons_self _ _)

/-- Counterexample to C7: with an empty rate table no exchange rate
resolves for the match's dates, yet the match's EUR cost basis is the
definite value `100` — equal to the USD cost basis via the silent
fallback rate `1.0` — not an absent/null value as the claim requires. -/
theorem C7_eur_not_absent_counterexample :
    get_exchange_rate [] 20240110 = none ∧
    (calculate_realized_gains_losses [] none .all
      [buyRowTen, sellRowTen]).detailed_transactions.map
      (fun m => (m.cost_basis_eur, m.cost_basis)) = [(100, 100)] := by
  constructor
  · rfl
  · have hgB : group_transactions_by_symbol
        ([buyRowTen, sellRowTen].filter (includedInGainsQuery none .all)) =
        [("XYZ", ⟨[toBuyLot buyRowTen], [toSellTx sellRowTen],
          "Stock"⟩)] := rfl
    have hqb : (toBuyLot buyRowTen).quantity = 10 := by
      norm_num [toBuyLot, buyRowTen, absOr0]
    have hmatchB : processSells [] "XYZ" [toBuyLot buyRowTen]
        [toSellTx sellRowTen] =
        ([mkMatch [] "XYZ" (toBuyLot buyRowTen) (toSellTx sellRowTen)
          (toBuyLot buyRowTen).quantity], []) := by
      have hqs : (toSellTx sellRowTen).quantity = 10 := by
        norm_num [toSellTx, sellRowTen, absOr0]
      unfold processSells
      simp only [List.foldl_cons, List.foldl_nil, List.nil_append]
      rw [processSell, if_neg (by rw [hqs]; norm_num),
        if_pos (by rw [hqs, hqb]), processSell]
    unfold calculate_realized_gains_losses
    rw [hgB]
    unfold process_fifo_gains_by_category
    simp only [List.map_cons, List.map_nil, List.flatten, List.append_nil]
    rw [hmatchB]
    simp only [List.map_cons, List.map_nil, List.cons.injEq, and_true]
    unfold mkMatch calculate_fifo_match rateOr1 get_exchange_rate
      findExact maxByDate toBuyLot toSellTx absOr0 buyRowTen sellRowTen
    norm_num

/-! ### C8: the dividend allocator (`get_net_dividends_by_symbol`) -/

/-- A share lot of the dividend allocator: open quantity plus the
dividends and withholding tax allocated to it so far. -/
structure DivLot where
  date : Date
  quantity : ℚ
  gross_dividends : ℚ
  source_tax : ℚ
  deriving DecidableEq, Repr

/-- The `SELL_TO_CLOSE` while-loop: remove sold shares FIFO; a partially
sold lot keeps `(1 - sold_ratio)` of its accumulated `gross_dividends`
and `source_tax`, where `sold_ratio` is the sold fraction of the lot. -/
def sellDivLots : List DivLot → ℚ → List DivLot
  | [], _ => []
  | l :: ls, r =>
    if r ≤ 0 then l :: ls
    else if l.quantity ≤ r then sellDivLots ls (r - l.quantity)
    else
      { l with
        quantity := l.quantity - r
        gross_dividends := l.gross_dividends * (1 - r / l.quantity)
        source_tax := l.source_tax * (1 - r / l.quantity) } :: ls

/-- Total open shares across the current lots. -/
def divTotalShares (lots : List DivLot) : ℚ :=
  (lots.map (·.quantity)).sum

/-- Distribute a dividend cash value across the open lots proportionally
to each lot's share of the total open quantity: positive values accrue to
`gross_dividends`, negative values add their absolute value to
`source_tax`; nothing happens with no open shares. -/
def distributeDividend (lots : List DivLot) (v : ℚ) : List DivLot :=
  if 0 < divTotalShares lots then
    lots.map (fun l =>
      let ld := v * (l.quantity / divTotalShares lots)
      if 0 < v then { l with gross_dividends := l.gross_dividends + ld }
      else { l with source_tax := l.source_tax + |ld| })
  else lots

/-- One transaction step of the dividend allocator's per-symbol replay. -/
def divStep (lots : List DivLot) (t : TransRow) : List DivLot :=
  if t.typ = "Trade" then
    if t.Action = "BUY_TO_OPEN" then
      lots ++ [⟨t.Date, absOr0 t.Quantity, 0, 0⟩]
    else if t.Action = "SELL_TO_CLOSE" then
      sellDivLots lots (absOr0 t.Quantity)
    else lots
  else if t.typ = "Money Movement" ∧
      (t.Sub_Type = some "Dividend" ∨ t.Sub_Type = none) then
    distributeDividend lots (t.Value.getD 0)
  else lots

/-- The per-symbol entry of the dividend dictionary. -/
structure DivResult where
  gross_dividends : ℚ
  source_tax : ℚ
  net_dividends : ℚ
  deriving DecidableEq, Repr

/-- Replay one symbol's chronological transactions and sum the dividends
still attached to the surviving (unsold) lots. -/
def netDividendsForSymbol (ts : List TransRow) (sym : String) : DivResult :=
  let lots := (ts.filter (fun t => t.Symbol == sym)).foldl divStep []
  let g := (lots.map (·.gross_dividends)).sum
  let s := (lots.map (·.source_tax)).sum
  ⟨g, s, g - s⟩

/-- `SELECT DISTINCT Symbol FROM transactions WHERE Type = 'Trade'`,
in first-occurrence order. -/
def distinctTradeSymbols (ts : List TransRow) : List String :=
  ts.foldl
    (fun acc t =>
      if t.typ = "Trade" ∧ ¬ acc.contains t.Symbol then acc ++ [t.Symbol]
      else acc) []

/-- `get_net_dividends_by_symbol`: for every traded symbol with a nonzero
still-held dividend or withholding total, the gross/tax/net dividends
attributable to lots still open at the end of the stream. -/
def get_net_dividends_by_symbol (ts : List TransRow) :
    List (String × DivResult) :=
  (distinctTradeSymbols ts).filterMap (fun sym =>
    let r := netDividendsForSymbol ts sym
    if 0 < r.gross_dividends ∨ 0 < r.source_tax then some (sym, r)
    else none)

/-- Scenario rows: buy 100 shares of DEF on day 1. -/
def buyDivRow : TransRow :=
  { Date := 20240101, Symbol := "DEF", typ := "Trade", Sub_Type := none
    Action := "BUY_TO_OPEN", Quantity := some 100
    Average_Price := some 10, Total := some 1000, Value := none
    Fees := some 0, Commissions := some 0
    Asset_Category := some "Stock" }

/-- Scenario rows: a 50-dollar dividend cash event on day 2. -/
def divRow : TransRow :=
  { Date := 20240102, Symbol := "DEF", typ := "Money Movement"
    Sub_Type := some "Dividend", Action := "", Quantity := none
    Average_Price := none, Total := none, Value := some 50
    Fees := none, Commissions := none, Asset_Category := none }

/-- Scenario rows: sell 40 shares on day 3. -/
def sellDivRow : TransRow :=
  { Date := 20240103, Symbol := "DEF", typ := "Trade", Sub_Type := none
    Action := "SELL_TO_CLOSE", Quantity := some 40
    Average_Price := some 15, Total := some 600, Value := none
    Fees := some 0, Commissions := some 0
    Asset_Category := some "Stock" }

/-- C8: dividend allocation. (1) A positive dividend cash event with open
shares adds to each open lot exactly its proportional share
`value * lot.quantity / total_open_quantity` of the dividend. (2) A
partial close scales the front lot's accumulated `gross_dividends` and
`source_tax` by the retained-quantity fraction `1 - sold/quantity`.
(3) Concretely — buy 100 on day 1, dividend +50 on day 2, sell 40 on day
3 — the per-symbol still-held figure carries exactly 30 of gross
dividends (and net 30). -/
theorem C8_dividend_allocation :
    (∀ (lots : List DivLot) (v : ℚ), 0 < divTotalShares lots → 0 < v →
      distributeDividend lots v =
        lots.map (fun l =>
          { l with gross_dividends :=
              l.gross_dividends + v * (l.quantity / divTotalShares lots) })) ∧
    (∀ (l : DivLot) (ls : List DivLot) (r : ℚ), 0 < r → r < l.quantity →
      sellDivLots (l :: ls) r =
        { l with
          quantity := l.quantity - r
          gross_dividends := l.gross_dividends * (1 - r / l.quantity)
          source_tax := l.source_tax * (1 - r / l.quantity) } :: ls) ∧
    get_net_dividends_by_symbol [buyDivRow, divRow, sellDivRow] =
      [("DEF", ⟨30, 0, 30⟩)] := by
  refine ⟨?_, ?_, ?_⟩
  · intro lots v htot hv
    unfold distributeDividend
    rw [if_pos htot]
    apply List.map_congr_left
    intro l _
    simp [if_pos hv]
  · intro l ls r hr hlt
    rw [sellDivLots, if_neg (not_le.mpr hr), if_neg (not_le.mpr hlt)]
  · have hsyms : distinctTradeSymbols [buyDivRow, divRow, sellDivRow] =
        ["DEF"] := rfl
    have hfil : ([buyDivRow, divRow, sellDivRow].filter
        (fun t => t.Symbol == "DEF")) = [buyDivRow, divRow, sellDivRow] :=
      rfl
    have s1 : divStep [] buyDivRow = [⟨20240101, 100, 0, 0⟩] := by
      unfold divStep
      norm_num [buyDivRow, absOr0]
    have s2 : divStep [⟨20240101, 100, 0, 0⟩] divRow =
        [⟨20240101, 100, 50, 0⟩] := by
      unfold divStep
      rw [if_neg (show ¬ divRow.typ = "Trade" by decide),
        if_pos (show divRow.typ = "Money Movement" ∧
          (divRow.Sub_Type = some "Dividend" ∨ divRow.Sub_Type = none) from
          ⟨rfl, Or.inl rfl⟩)]
      unfold distributeDividend
      rw [if_pos (by norm_num [divTotalShares])]
      norm_num [divRow, divTotalShares]
    have s3 : divStep [⟨20240101, 100, 50, 0⟩] sellDivRow =
        [⟨20240101, 60, 30, 0⟩] := by
      unfold divStep
      rw [if_pos (show sellDivRow.typ = "Trade" from rfl)]
      rw [if_neg (show ¬ sellDivRow.Action = "BUY_TO_OPEN" by decide)]
      rw [if_pos (show sellDivRow.Action = "SELL_TO_CLOSE" from rfl)]
      have habs : absOr0 sellDivRow.Quantity = 40 := by
        norm_num [sellDivRow, absOr0]
      rw [habs, sellDivLots]
      rw [if_neg (by norm_num), if_neg (by norm_num)]
      norm_num
    have hnet : netDividendsForSymbol [buyDivRow, divRow, sellDivRow]
        "DEF" = ⟨30, 0, 30⟩ := by
      unfold netDividendsForSymbol
      rw [hfil]
      simp only [List.foldl_cons, List.foldl_nil, s1, s2, s3]
      norm_num
    unfold get_net_dividends_by_symbol
    rw [hsyms]
    simp only [List.filterMap_cons, List.filterMap_nil, hnet]
    norm_num

/-- Witness for C8: the distribution law at one 100-share lot with a
50-dollar dividend, and the scaling law at a 40-share close of that
lot. -/
theorem C8_dividend_allocation_witness :
    distributeDividend [⟨20240101, 100, 0, 0⟩] 50 =
      [{ (⟨20240101, 100, 0, 0⟩ : DivLot) with gross_dividends :=
          0 + 50 * (100 / divTotalShares [⟨20240101, 100, 0, 0⟩]) }] ∧
    sellDivLots [⟨20240101, 100, 50, 0⟩] 40 =
      [{ (⟨20240101, 100, 50, 0⟩ : DivLot) with
          quantity := 100 - 40
          gross_dividends := 50 * (1 - 40 / 100)
          source_tax := 0 * (1 - 40 / 100) }] := by
  constructor
  · have h := C8_dividend_allocation.1 [⟨20240101, 100, 0, 0⟩] 50
      (by norm_num [divTotalShares]) (by norm_num)
    simpa using h
  · have h := C8_dividend_allocation.2.1 ⟨20240101, 100, 50, 0⟩ [] 40
      (by norm_num) (by norm_num)
    simpa using h

/-! ### C9: where EUR rounding happens -/

/-- The wire-funds aggregation of the dashboard index route: each
deposit's USD value is converted (and rounded) individually by
`convert_usd_to_eur`, a missing conversion counts as `0`, and the
already-rounded EUR amounts are then summed. Rows are
`(Date, Value)` with the null fallbacks of the source. -/
def wireFundsTotals (table : RateTable) (currentDate : Date)
    (rows : List (Option Date × Option ℚ)) : ℚ × ℚ :=
  rows.foldl
    (fun acc r =>
      let d := r.1.getD currentDate
      let usd := r.2.getD 0
      let eur := (convert_usd_to_eur table usd d).getD 0
      (acc.1 + usd, acc.2 + eur))
    (0, 0)

theorem wireFundsTotals_fold (table : RateTable) (currentDate : Date) :
    ∀ (rows : List (Option Date × Option ℚ)) (a b : ℚ),
    rows.foldl
      (fun acc r =>
        let d := r.1.getD currentDate
        let usd := r.2.getD 0
        let eur := (convert_usd_to_eur table usd d).getD 0
        (acc.1 + usd, acc.2 + eur)) (a, b) =
      (a + (rows.map (fun r => r.2.getD 0)).sum,
       b + (rows.map (fun r =>
        (convert_usd_to_eur table (r.2.getD 0)
          (r.1.getD currentDate)).getD 0)).sum) := by
  intro rows
  induction rows with
  | nil => intro a b; simp
  | cons r rows ih =>
    intro a b
    rw [List.foldl_cons]
    rw [ih]
    simp only [List.map_cons, List.sum_cons, Prod.mk.injEq]
    constructor <;> ring

/-- C9 (amended): EUR rounding is not deferred to final aggregation.
`convert_usd_to_eur` rounds every single conversion to 2 decimal places
(`round(usd_amount / rate, 2)`), and the wire-funds EUR total is the sum
of these per-conversion, already-rounded EUR amounts — so aggregates
built on `convert_usd_to_eur` add rounded intermediate values rather than
rounding once at the end. -/
theorem C9_per_conversion_rounding (table : RateTable)
    (currentDate : Date) (rows : List (Option Date × Option ℚ))
    (amount : ℚ) (d : Date) (rate : ℚ) (hA : amount ≠ 0)
    (hR : get_exchange_rate table d = some rate) (hR0 : rate ≠ 0) :
    convert_usd_to_eur table amount d = some (round2 (amount / rate)) ∧
    (wireFundsTotals table currentDate rows).2 =
      (rows.map (fun r =>
        (convert_usd_to_eur table (r.2.getD 0)
          (r.1.getD currentDate)).getD 0)).sum := by
  constructor
  · unfold convert_usd_to_eur
    rw [if_neg hA, hR]
    simp [hR0]
  · unfold wireFundsTotals
    rw [wireFundsTotals_fold]
    ring

/-- Witness for C9 (amended): a 0.01-dollar amount at rate 3 rounds to
EUR 0.00 in each individual conversion. -/
theorem C9_per_conversion_rounding_witness :
    convert_usd_to_eur [(1, 3)] (1/100) 1 = some (round2 ((1/100) / 3)) ∧
    (wireFundsTotals [(1, 3)] 1
      [(some 1, some (1/100)), (some 1, some (1/100))]).2 =
      ([(some 1, some (1/100)), (some 1, some (1/100))].map
        (fun r : Option Date × Option ℚ =>
          (convert_usd_to_eur [(1, 3)] (r.2.getD 0)
            (r.1.getD 1)).getD 0)).sum :=
  C9_per_conversion_rounding [(1, 3)] 1
    [(some 1, some (1/100)), (some 1, some (1/100))] (1/100) 1 3
    (by norm_num) rfl (by norm_num)

/-- Counterexample to C9: two wire deposits of $0.01 with rate 3
(1 EUR = 3 USD). Each per-conversion EUR value is rounded to 0.00 before
summation, so the summed EUR total is 0; rounding once at final
aggregation would instead give `round2(0.02 / 3) = 0.01`. Intermediate
per-conversion EUR values are therefore rounded before being summed and
the compounded rounding error is visible in the total. -/
theorem C9_rounding_counterexample :
    convert_usd_to_eur [(1, 3)] (1/100) 1 = some 0 ∧
    (wireFundsTotals [(1, 3)] 1
      [(some 1, some (1/100)), (some 1, some (1/100))]).2 = 0 ∧
    round2 ((wireFundsTotals [(1, 3)] 1
      [(some 1, some (1/100)), (some 1, some (1/100))]).1 / 3) = 1/100 ∧
    (0 : ℚ) ≠ 1/100 := by
  have hrate : get_exchange_rate [((1 : Date), (3 : ℚ))] 1 = some 3 := rfl
  have hconv : convert_usd_to_eur [(1, 3)] (1/100) 1 = some 0 := by
    unfold convert_usd_to_eur
    rw [if_neg (by norm_num), hrate]
    have h0 : round2 ((1 : ℚ)/100 / 3) = 0 := by
      unfold round2
      rw [show (1 : ℚ)/100/3*100 = 1/3 by ring, round_eq,
        show (1 : ℚ)/3 + 1/2 = 5/6 by ring,
        show ⌊(5 : ℚ)/6⌋ = 0 by rw [Int.floor_eq_iff]; norm_num]
      norm_num
    show (if (3 : ℚ) = 0 then none
      else some (round2 ((1 : ℚ)/100 / 3))) = some 0
    rw [if_neg (by norm_num), h0]
  have hfold := wireFundsTotals_fold [(1, 3)] 1
    [(some 1, some (1/100)), (some 1, some (1/100))] 0 0
  refine ⟨hconv, ?_, ?_, by norm_num⟩
  · unfold wireFundsTotals
    rw [hfold]
    simp only [List.map_cons, List.map_nil, List.sum_cons, List.sum_nil]
    have : ((some ((1 : ℚ)/100)).getD 0) = 1/100 := rfl
    rw [show ((some ((1:Date))).getD 1) = 1 from rfl] at *
    simp only [Option.getD_some]
    rw [hconv]
    norm_num
  · unfold wireFundsTotals
    rw [hfold]
    simp only [List.map_cons, List.map_nil, List.sum_cons, List.sum_nil,
      Option.getD_some]
    rw [show (0 : ℚ) + (1/100 + (1/100 + 0)) = 2/100 by ring]
    unfold round2
    rw [show (2 : ℚ)/100 / 3 * 100 = 2/3 by ring]
    rw [round_eq]
    rw [show (2 : ℚ)/3 + 1/2 = 7/6 by ring]
    rw [show ⌊(7 : ℚ)/6⌋ = 1 by rw [Int.floor_eq_iff]; norm_num]
    norm_num

/-! ### C10: the two open-lot computations agree -/

/-- A `transaction_data` record of
`PortfolioService._separate_buy_sell_transactions` (no asset category). -/
structure PsLot where
  date : Date
  quantity : ℚ
  price : ℚ
  total_cost : ℚ
  fees : ℚ
  deriving DecidableEq, Repr

/-- The inner `while remaining_to_sell > 0 and remaining_buys:` loop of
`PortfolioService._process_fifo_matching` for one sell. -/
def psConsumeSell : List PsLot → ℚ → List PsLot
  | [], _ => []
  | b :: bs, r =>
    if r ≤ 0 then b :: bs
    else if b.quantity ≤ r then psConsumeSell bs (r - b.quantity)
    else
      { b with
        quantity := b.quantity - r
        total_cost := ((b.quantity - r) / (b.quantity - r + r)) * b.total_cost
        fees := ((b.quantity - r) / (b.quantity - r + r)) * b.fees } :: bs

/-- `PortfolioService._process_fifo_matching`: walk the sells in order,
consuming the FIFO buy queue per sell. -/
def ps_process_fifo_matching (buys : List PsLot) (sells : List PsLot) :
    List PsLot :=
  sells.foldl (fun bs sell => psConsumeSell bs sell.quantity) buys

/-- The single-pass FIFO removal inside
`calculate_unrealized_gains_losses` (`app.py`): all sold quantity is
summed first and removed from the buy list in one pass. -/
def unrealized_remove_sold : List BuyLot → ℚ → List BuyLot
  | [], _ => []
  | b :: bs, r =>
    if r ≤ 0 then b :: bs
    else if b.quantity ≤ r then unrealized_remove_sold bs (r - b.quantity)
    else
      { b with
        quantity := b.quantity - r
        total_cost := ((b.quantity - r) / (b.quantity - r + r)) * b.total_cost
        fees := ((b.quantity - r) / (b.quantity - r + r)) * b.fees } :: bs

/-- Forget the asset category: the fields (date, quantity, price, cost,
fees) shared by the two lot representations. -/
def BuyLot.toPs (l : BuyLot) : PsLot :=
  ⟨l.date, l.quantity, l.price, l.total_cost, l.fees⟩

theorem unrealized_remove_sold_zero (bs : List BuyLot) :
    unrealized_remove_sold bs 0 = bs := by
  cases bs with
  | nil => rfl
  | cons b bs => rw [unrealized_remove_sold, if_pos (le_refl 0)]

theorem psConsumeSell_map : ∀ (bs : List BuyLot) (r : ℚ),
    psConsumeSell (bs.map BuyLot.toPs) r =
      (unrealized_remove_sold bs r).map BuyLot.toPs := by
  intro bs
  induction bs with
  | nil => intro r; rfl
  | cons b bs ih =>
    intro r
    rw [List.map_cons, psConsumeSell, unrealized_remove_sold]
    by_cases hr : r ≤ 0
    · rw [if_pos hr, if_pos hr, List.map_cons]
    · rw [if_neg hr, if_neg hr]
      by_cases hb : b.quantity ≤ r
      · rw [if_pos (show (BuyLot.toPs b).quantity ≤ r from hb), if_pos hb]
        exact ih (r - b.quantity)
      · rw [if_neg (show ¬ (BuyLot.toPs b).quantity ≤ r from hb), if_neg hb]
        simp [BuyLot.toPs]

theorem unrealized_remove_sold_add : ∀ (bs : List BuyLot) (a b : ℚ),
    0 ≤ a → 0 ≤ b →
    unrealized_remove_sold (unrealized_remove_sold bs a) b =
      unrealized_remove_sold bs (a + b) := by
  intro bs
  induction bs with
  | nil => intro a b _ _; rfl
  | cons x bs ih =>
    intro a b ha hb
    by_cases ha0 : a ≤ 0
    · have : a = 0 := le_antisymm ha0 ha
      subst this
      rw [unrealized_remove_sold, if_pos (le_refl 0), zero_add]
    · rw [unrealized_remove_sold, if_neg ha0]
      have hab : ¬ a + b ≤ 0 := by
        push_neg at ha0 ⊢
        linarith
      by_cases hx : x.quantity ≤ a
      · rw [if_pos hx]
        rw [ih (a - x.quantity) b (by linarith) hb]
        rw [unrealized_remove_sold, if_neg hab,
          if_pos (show x.quantity ≤ a + b by linarith)]
        congr 1
        ring
      · rw [if_neg hx]
        push_neg at hx ha0
        by_cases hb0 : b ≤ 0
        · have : b = 0 := le_antisymm hb0 hb
          subst this
          rw [unrealized_remove_sold, if_pos (le_refl 0), add_zero,
            unrealized_remove_sold, if_neg (by push_neg; linarith),
            if_neg (by push_neg; exact hx)]
        · push_neg at hb0
          rw [unrealized_remove_sold, if_neg (not_le.mpr hb0)]
          by_cases hx2 : x.quantity - a ≤ b
          · rw [if_pos (show ({ x with
                quantity := x.quantity - a
                total_cost := ((x.quantity - a) / (x.quantity - a + a)) *
                  x.total_cost
                fees := ((x.quantity - a) / (x.quantity - a + a)) *
                  x.fees } : BuyLot).quantity ≤ b from hx2)]
            rw [unrealized_remove_sold, if_neg hab,
              if_pos (show x.quantity ≤ a + b by linarith)]
            congr 1
            ring
          · rw [if_neg (show ¬ ({ x with
                quantity := x.quantity - a
                total_cost := ((x.quantity - a) / (x.quantity - a + a)) *
                  x.total_cost
                fees := ((x.quantity - a) / (x.quantity - a + a)) *
                  x.fees } : BuyLot).quantity ≤ b from hx2)]
            rw [unrealized_remove_sold, if_neg hab,
              if_neg (show ¬ x.quantity ≤ a + b by push_neg at hx2 ⊢; linarith)]
            have hq0 : x.quantity ≠ 0 := by linarith
            have hqa : x.quantity - a ≠ 0 := by
              push_neg at hx2
              linarith
            have e1 : x.quantity - a - b + b = x.quantity - a := by ring
            have e2 : x.quantity - a + a = x.quantity := by ring
            have e3 : x.quantity - (a + b) + (a + b) = x.quantity := by ring
            simp only [List.cons.injEq, BuyLot.mk.injEq, e1, e2, e3,
      true_and, and_true]
            refine ⟨by ring, ?_, ?_⟩
            · field_simp
              ring
            · field_simp
              ring

/-- C10: the sequential per-sell FIFO pass of
`PortfolioService._process_fifo_matching` and the sum-first single FIFO
pass of `calculate_unrealized_gains_losses` produce identical remaining
open lots — same dates, quantities, total costs and fees — whenever every
sell quantity is nonnegative (sell quantities are `abs(...)` in both
sources) and, as the claim assumes, the cumulative quantity sold never
exceeds the quantity bought. -/
theorem C10_two_pass_open_lots_agree (buys : List BuyLot)
    (sells : List PsLot) (hq : ∀ s ∈ sells, 0 ≤ s.quantity)
    (hfeas : ∀ n, ((sells.take n).map (·.quantity)).sum ≤
      (buys.map (·.quantity)).sum) :
    ps_process_fifo_matching (buys.map BuyLot.toPs) sells =
      (unrealized_remove_sold buys
        ((sells.map (·.quantity)).sum)).map BuyLot.toPs := by
  clear hfeas
  induction sells generalizing buys with
  | nil =>
    simp only [ps_process_fifo_matching, List.foldl_nil, List.map_nil,
      List.sum_nil]
    rw [unrealized_remove_sold_zero]
  | cons s ss ih =>
    have hs0 : 0 ≤ s.quantity := hq s (List.mem_cons_self s ss)
    have hss : ∀ x ∈ ss, 0 ≤ x.quantity :=
      fun x hx => hq x (List.mem_cons_of_mem _ hx)
    have hsum0 : 0 ≤ (ss.map (·.quantity)).sum :=
      List.sum_nonneg (by
        intro x hx
        obtain ⟨y, hy, rfl⟩ := List.mem_map.mp hx
        exact hss y hy)
    unfold ps_process_fifo_matching
    rw [List.foldl_cons, psConsumeSell_map]
    have := ih (unrealized_remove_sold buys s.quantity) hss
    unfold ps_process_fifo_matching at this
    rw [this, unrealized_remove_sold_add buys s.quantity _ hs0 hsum0]
    simp only [List.map_cons, List.sum_cons]

/-- Witness for C10: one 10-unit lot, sells of 4 then 3 units. -/
theorem C10_two_pass_open_lots_agree_witness :
    ps_process_fifo_matching
      (([⟨20240101, 10, 5, 100, 2, "Stock"⟩] : List BuyLot).map BuyLot.toPs)
      [⟨20240201, 4, 6, 24, 0⟩, ⟨20240301, 3, 6, 18, 0⟩] =
      (unrealized_remove_sold [⟨20240101, 10, 5, 100, 2, "Stock"⟩]
        (([⟨20240201, 4, 6, 24, 0⟩, ⟨20240301, 3, 6, 18, 0⟩] :
          List PsLot).map (·.quantity)).sum).map BuyLot.toPs :=
  C10_two_pass_open_lots_agree [⟨20240101, 10, 5, 100, 2, "Stock"⟩]
    [⟨20240201, 4, 6, 24, 0⟩, ⟨20240301, 3, 6, 18, 0⟩]
    (by intro s hs; fin_cases hs <;> norm_num)
    (by
      intro n
      match n with
      | 0 => norm_num
      | 1 => norm_num [List.take_succ_cons, List.take_nil]
      | (k+2) => norm_num [List.take_succ_cons, List.take_nil])

end TastyTax
